import Mathlib

/-!
Verification of the telegram-llm-tui core against its specification.

This file shallowly embeds the relevant parts of the Rust sources
(`core/src/telegram/send.rs`, `core/src/telegram/cache.rs`,
`core/src/telegram/events.rs`, `app/src/ui_state.rs`) as executable Lean
definitions and proves or refutes the specification claims about them.

Modelling conventions:
* `i64`/`i32` values (chat, message, user ids, timestamps, rpc codes) are
  `Int`; `u32`/`u64`/`usize` counters are `Nat` with explicit saturation
  (`min _ U64MAX`, truncated subtraction `-` on `Nat` is exactly Rust's
  `saturating_sub`) where the source saturates.
* `Duration` values are millisecond counts (`Nat`), matching the source's
  `as_millis() as u64` arithmetic in `backoff_delay`.
* Rust `String::len` is UTF-8 byte length, embedded as `String.utf8ByteSize`.
* `VecDeque` is a `List` whose head is the deque front and whose last
  element is the deque back; `HashMap<ChatId, ChatEntry>` is an association
  list in iteration order (the cache code only relies on the iteration
  order for `min_by_key` tie-breaking, which the spec leaves free).
* Channels and `watch::Sender::send` are modelled by returning the list of
  published values; locks are modelled by passing the guarded state, with a
  `poisoned` flag where lock poisoning matters.
-/

namespace TgTui

/-- `u64::MAX`. -/
def U64MAX : Nat := 2 ^ 64 - 1

/-- `u32::MAX`. -/
def U32MAX : Nat := 2 ^ 32 - 1

/-! ## Send pipeline model (`core/src/telegram/send.rs`) -/

/-- `SendPipelineConfig` (send.rs 19-25); the two delays are kept as the
millisecond counts the code extracts with `as_millis() as u64`. -/
structure SendPipelineConfig where
  queue_limit : Nat
  max_retry_attempts : Option Nat
  retry_base_delay_ms : Nat
  retry_max_delay_ms : Nat
deriving DecidableEq

/-- The `Default` impl for `SendPipelineConfig` (send.rs 27-36). -/
def SendPipelineConfig.default : SendPipelineConfig :=
  { queue_limit := 256
    max_retry_attempts := none
    retry_base_delay_ms := 500
    retry_max_delay_ms := 30000 }

/-- `grammers_mtsender::RpcError` restricted to the fields `retry_decision`
inspects: `name : String`, `code : i32`, `value : Option<u32>`. -/
structure RpcError where
  name : String
  code : Int
  value : Option Nat
deriving DecidableEq

/-- `grammers_mtsender::InvocationError`, payloads other than the rpc error
elided because `retry_decision` only inspects the variant. -/
inductive InvocationError where
  | Rpc (rpc : RpcError)
  | Io
  | Transport
  | Deserialize
  | Dropped
  | InvalidDc
  | Authentication
deriving DecidableEq

/-- `SendError` (send.rs 125-131). -/
inductive SendError where
  | InvalidMessageId (field : String) (value : Int)
  | Invocation (err : InvocationError)
deriving DecidableEq

/-- `SendResult` (send.rs 77-89); message ids are `i64`. -/
inductive SendResult where
  | MessageSent (message_id : Int)
  | MessageEdited (message_id : Int)
  | MessageDeleted (message_id : Int) (deleted_count : Nat)
deriving DecidableEq

/-- `SendFailure` (send.rs 104-109). The code stores the error's `Display`
string; the model keeps the `SendError` value itself, which determines it. -/
structure SendFailure where
  error : SendError
  attempts : Nat
  retryable : Bool
deriving DecidableEq

/-- `SendStatus` (send.rs 91-102); `next_retry_in` is in milliseconds. -/
inductive SendStatus where
  | Queued (attempt : Nat) (next_retry_in : Option Nat)
  | Sending (attempt : Nat)
  | Sent (result : SendResult)
  | Failed (failure : SendFailure)
deriving DecidableEq

/-- `RetryDecision` (send.rs 464-467); the delay is in milliseconds. -/
inductive RetryDecision where
  | RetryAfter (delay_ms : Nat)
  | Fail (retryable : Bool)
deriving DecidableEq

/-- `u64::saturating_mul(2)`. -/
def satMul2 (x : Nat) : Nat := min (x * 2) U64MAX

/-- The `while step < attempt` loop of `backoff_delay` (send.rs 511-520),
rephrased on the remaining iteration count `attempt - step` (the loop body
runs at most `attempt - 1` times, starting from `step = 1`). -/
def backoffLoop (max_ms : Nat) : Nat → Nat → Nat
  | delay, 0 => delay
  | delay, rem + 1 =>
    let d := satMul2 delay
    if max_ms ≤ d then max_ms else backoffLoop max_ms d rem

/-- `backoff_delay` (send.rs 505-522), in milliseconds. -/
def backoffDelayMs (attempt : Nat) (config : SendPipelineConfig) : Nat :=
  let base_ms := config.retry_base_delay_ms
  let max_ms := config.retry_max_delay_ms
  if base_ms = 0 ∨ max_ms = 0 then 0
  else backoffLoop max_ms base_ms (attempt - 1)

/-- The `match rpc.name.as_str()` arm selector of `rate_limit_delay`
(send.rs 496-497). -/
def isRateLimitName (name : String) : Bool :=
  name == "FLOOD_WAIT" || name == "SLOWMODE_WAIT" || name == "FLOOD_PREMIUM_WAIT"

/-- `rate_limit_delay` (send.rs 495-503); `Duration::from_secs(v as u64)`
becomes `v * 1000` milliseconds, and `.filter(|delay| !delay.is_zero())`
keeps only non-zero delays. -/
def rateLimitDelayMs (rpc : RpcError) : Option Nat :=
  if isRateLimitName rpc.name then
    (rpc.value.map (fun seconds => seconds * 1000)).filter (fun delay => delay != 0)
  else none

/-- `retry_decision` (send.rs 469-493). -/
def retryDecision (error : SendError) (attempt : Nat) (config : SendPipelineConfig) :
    RetryDecision :=
  match error with
  | .InvalidMessageId _ _ => .Fail false
  | .Invocation err =>
    match err with
    | .Rpc rpc =>
      match rateLimitDelayMs rpc with
      | some delay => .RetryAfter delay
      | none =>
        if 500 ≤ rpc.code then .RetryAfter (backoffDelayMs attempt config)
        else .Fail false
    | .Io | .Transport | .Deserialize => .RetryAfter (backoffDelayMs attempt config)
    | .Dropped | .InvalidDc => .RetryAfter (backoffDelayMs attempt config)
    | .Authentication => .Fail false

/-- `exceeded_max_attempts` (send.rs 457-462). -/
def exceededMaxAttempts (attempt : Nat) (max_attempts : Option Nat) : Bool :=
  match max_attempts with
  | some m => decide (m ≤ attempt)
  | none => false

/-- `QueueItem` (send.rs 286-295) restricted to the fields the retry logic
uses; `next_attempt` is an instant in milliseconds. The id, request and the
status channel are external to the pure retry logic. -/
structure QueueItemM where
  id : Nat
  attempts : Nat
  next_attempt : Nat
  sequence : Nat
deriving DecidableEq

/-- Output of one `process_queue_item` call: the statuses published on the
item's watch channel, in order; the item pushed back onto the heap, if any;
and the worker's sequence counter afterwards. -/
structure ProcessOutcome where
  statuses : List SendStatus
  requeued : Option QueueItemM
  sequence : Nat
deriving DecidableEq

/-- `u32::saturating_add(1)`. -/
def satAdd1U32 (x : Nat) : Nat := min (x + 1) U32MAX

/-- `process_queue_item` (send.rs 370-455) as a pure function of the item,
the transport result, the config, the current instant `now` (ms) and the
worker's `sequence` counter. `sequence.wrapping_add(1)` on `u64` is
`(seq + 1) % 2 ^ 64`. -/
def processQueueItem (item : QueueItemM) (result : Except SendError SendResult)
    (config : SendPipelineConfig) (now : Nat) (sequence : Nat) : ProcessOutcome :=
  let attempt := satAdd1U32 item.attempts
  match result with
  | .ok r => ⟨[.Sending attempt, .Sent r], none, sequence⟩
  | .error e =>
    match retryDecision e attempt config with
    | .RetryAfter delay =>
      if exceededMaxAttempts attempt config.max_retry_attempts then
        ⟨[.Sending attempt, .Failed ⟨e, attempt, true⟩], none, sequence⟩
      else
        let seq' := (sequence + 1) % 2 ^ 64
        ⟨[.Sending attempt, .Queued attempt (some delay)],
          some { item with attempts := attempt, next_attempt := now + delay, sequence := seq' },
          seq'⟩
    | .Fail retryable =>
      ⟨[.Sending attempt, .Failed ⟨e, attempt, retryable⟩], none, sequence⟩

/-! ## Domain events (`core/src/telegram/events.rs`)

`ChatId`, `MessageId`, `UserId` are opaque `i64` newtypes; the model uses
`Int` directly.

Note on `outgoing`: the struct declarations in events.rs (lines 19-35) do
NOT declare an `outgoing` field, but `ChatCache::apply_event`
(cache.rs 482), `ui_state.rs` and the crate's own tests
(cache.rs tests, tests/domain_events.rs) construct and read
`message.outgoing`. The model below follows the uses (the declarations are
the slip); the declared field lists are recorded separately for claim C3. -/

/-- `MessageNew` as used by the cache, the UI bridge and the tests. -/
structure MessageNew where
  chat_id : Int
  message_id : Int
  author_id : Int
  timestamp : Int
  text : String
  outgoing : Bool
deriving DecidableEq

/-- `MessageEdited` as used by the cache and the tests. -/
structure MessageEdited where
  chat_id : Int
  message_id : Int
  editor_id : Int
  timestamp : Int
  text : String
  outgoing : Bool
deriving DecidableEq

/-- `ReadReceipt` (events.rs 37-43). -/
structure ReadReceipt where
  chat_id : Int
  reader_id : Int
  timestamp : Int
  last_read_message_id : Int
deriving DecidableEq

/-- `Typing` (events.rs 45-50). -/
structure Typing where
  chat_id : Int
  user_id : Int
  timestamp : Int
deriving DecidableEq

/-- `DomainEvent` (events.rs 52-58). -/
inductive DomainEvent where
  | MessageNew (m : MessageNew)
  | MessageEdited (m : MessageEdited)
  | ReadReceipt (r : ReadReceipt)
  | Typing (t : Typing)
deriving DecidableEq

/-- The field names declared by `struct MessageNew` in events.rs 19-26. -/
def messageNewDeclaredFields : List String :=
  ["chat_id", "message_id", "author_id", "timestamp", "text"]

/-- The field names declared by `struct MessageEdited` in events.rs 28-35. -/
def messageEditedDeclaredFields : List String :=
  ["chat_id", "message_id", "editor_id", "timestamp", "text"]

/-- The `MessageNew` fields read by `ChatCache::apply_event`
(cache.rs 474-484) when building the `CachedMessage`. -/
def messageNewFieldsReadByCache : List String :=
  ["chat_id", "message_id", "author_id", "timestamp", "text", "outgoing"]

/-- The field initializers of the `MessageNew` literal built by the crate's
own test helper `base_message` (cache.rs 771-780). -/
def messageNewTestLiteralFields : List String :=
  ["chat_id", "message_id", "author_id", "timestamp", "text", "outgoing"]

/-! ## Chat cache model (`core/src/telegram/cache.rs`) -/

/-- `ChatPeerKind` (cache.rs 53-59). -/
inductive ChatPeerKind where
  | User
  | Group
  | Channel
  | Unknown
deriving DecidableEq

/-- `ChatPeerKind::as_str` (cache.rs 62-69). -/
def ChatPeerKind.asStr : ChatPeerKind → String
  | .User => "user"
  | .Group => "group"
  | .Channel => "channel"
  | .Unknown => "unknown"

/-- `ChatPeerKind::from_str` (cache.rs 71-78). -/
def ChatPeerKind.fromStr (raw : String) : ChatPeerKind :=
  if raw = "user" then .User
  else if raw = "group" then .Group
  else if raw = "channel" then .Channel
  else .Unknown

/-- `ChatSummary` (cache.rs 81-89); `unread_count : Option<u32>` is an
`Option Nat` whose values are below `2^32`. -/
structure ChatSummary where
  chat_id : Int
  title : String
  peer_kind : ChatPeerKind
  last_message_id : Option Int
  last_message_at : Option Int
  unread_count : Option Nat
deriving DecidableEq

/-- `CachedMessage` (cache.rs 91-100). -/
structure CachedMessage where
  chat_id : Int
  message_id : Int
  author_id : Int
  timestamp : Int
  edit_timestamp : Option Int
  text : String
  outgoing : Bool
deriving DecidableEq

/-- `CacheLimits` (cache.rs 102-107); a limit of 0 disables the rule. -/
structure CacheLimits where
  max_chats : Nat
  max_messages_per_chat : Nat
  max_bytes : Nat
deriving DecidableEq

/-- `CacheSnapshot` (cache.rs 116-120). -/
structure CacheSnapshot where
  chats : List ChatSummary
  messages : List CachedMessage
deriving DecidableEq

/-- `message_size_bytes` (cache.rs 748-750): UTF-8 byte length of the text
plus `MESSAGE_OVERHEAD_BYTES = 64`. The `usize` saturating add cannot
saturate below `2^64` total bytes, so plain `Nat` addition is exact. -/
def messageSizeBytes (m : CachedMessage) : Nat := m.text.utf8ByteSize + 64

/-- `summary_size_bytes` (cache.rs 752-754): UTF-8 byte length of the title
plus `CHAT_OVERHEAD_BYTES = 64`. -/
def summarySizeBytes (s : ChatSummary) : Nat := s.title.utf8ByteSize + 64

/-- `ChatEntry` (cache.rs 394-401). `messages` lists the deque front
first; its last element is the deque back. -/
structure ChatEntry where
  summary : ChatSummary
  messages : List CachedMessage
  updated_at : Int
  message_bytes : Nat
  summary_bytes : Nat
deriving DecidableEq

/-- `ChatCache` (cache.rs 403-408); the `HashMap` is an association list in
iteration order. -/
structure ChatCache where
  chats : List (Int × ChatEntry)
  limits : CacheLimits
  current_bytes : Nat
deriving DecidableEq

/-- `EvictionStats` (cache.rs 382-386). -/
structure EvictionStats where
  chats_evicted : Nat
  messages_evicted : Nat
deriving DecidableEq

/-- `HashMap::get` on the association list: first entry with the key. -/
def findChat? (chats : List (Int × ChatEntry)) (id : Int) : Option ChatEntry :=
  match chats with
  | [] => none
  | (k, e) :: rest => if k = id then some e else findChat? rest id

/-- Replace the (first, hence unique) entry with key `id`; models mutation
through `HashMap::get_mut` / `Entry`. -/
def setChat (chats : List (Int × ChatEntry)) (id : Int) (e' : ChatEntry) :
    List (Int × ChatEntry) :=
  match chats with
  | [] => []
  | (k, e) :: rest => if k = id then (k, e') :: rest else (k, e) :: setChat rest id e'

/-- `HashMap::remove`: drop the (first, hence unique) entry with key `id`. -/
def removeChatList (chats : List (Int × ChatEntry)) (id : Int) :
    List (Int × ChatEntry) :=
  match chats with
  | [] => []
  | (k, e) :: rest => if k = id then rest else (k, e) :: removeChatList rest id

/-- `messages.iter_mut().find(|cached| cached.message_id == mid)` followed
by a mutation of the found element: returns the old element, the new
element, and the updated list, or `none` if no message matches. -/
def modifyFirstMsg (mid : Int) (f : CachedMessage → CachedMessage) :
    List CachedMessage → Option (CachedMessage × CachedMessage × List CachedMessage)
  | [] => none
  | x :: xs =>
    if x.message_id = mid then some (x, f x, f x :: xs)
    else
      match modifyFirstMsg mid f xs with
      | some (o, n, ys) => some (o, n, x :: ys)
      | none => none

/-- `ChatCache::new` (cache.rs 411-417). -/
def ChatCache.new (limits : CacheLimits) : ChatCache :=
  { chats := [], limits := limits, current_bytes := 0 }

/-- `ChatCache::insert_chat` (cache.rs 510-531). -/
def ChatCache.insert_chat (c : ChatCache) (summary : ChatSummary) : ChatCache :=
  let updated_at := summary.last_message_at.getD 0
  match findChat? c.chats summary.chat_id with
  | some entry =>
    let cb := c.current_bytes - entry.summary_bytes
    let sb := summarySizeBytes summary
    let entry' := { entry with summary := summary, summary_bytes := sb,
                               updated_at := updated_at }
    { c with chats := setChat c.chats summary.chat_id entry', current_bytes := cb + sb }
  | none =>
    let sb := summarySizeBytes summary
    let entry : ChatEntry :=
      { summary := summary, messages := [], updated_at := updated_at,
        message_bytes := 0, summary_bytes := sb }
    { c with chats := c.chats ++ [(summary.chat_id, entry)],
             current_bytes := c.current_bytes + sb }

/-- The `if let Some(last) = entry.messages.back()` block at the end of
`insert_message` (cache.rs 571-575). -/
def refreshLast (e : ChatEntry) : ChatEntry :=
  match e.messages.getLast? with
  | some last =>
    { e with summary := { e.summary with last_message_id := some last.message_id,
                                         last_message_at := some last.timestamp },
             updated_at := last.timestamp }
  | none => e

/-- The stub chat entry created by `insert_message`'s `or_insert_with`
(cache.rs 534-552). -/
def stubSummary (chat_id : Int) : ChatSummary :=
  { chat_id := chat_id, title := "", peer_kind := .Unknown,
    last_message_id := none, last_message_at := none, unread_count := none }

/-- `ChatCache::insert_message` (cache.rs 533-576). -/
def ChatCache.insert_message (c : ChatCache) (message : CachedMessage) : ChatCache :=
  let step : ChatCache × ChatEntry :=
    match findChat? c.chats message.chat_id with
    | some entry => (c, entry)
    | none =>
      let summary := stubSummary message.chat_id
      let sb := summarySizeBytes summary
      let entry : ChatEntry :=
        { summary := summary, messages := [], updated_at := 0,
          message_bytes := 0, summary_bytes := sb }
      ({ c with chats := c.chats ++ [(message.chat_id, entry)],
                current_bytes := c.current_bytes + sb }, entry)
  let c0 := step.1
  let entry := step.2
  match modifyFirstMsg message.message_id (fun _ => message) entry.messages with
  | some (old, _, msgs') =>
    let oldSize := messageSizeBytes old
    let newSize := messageSizeBytes message
    let e1 : ChatEntry :=
      { entry with
          messages := msgs'
          message_bytes := entry.message_bytes - oldSize + newSize }
    { c0 with
        chats := setChat c0.chats message.chat_id (refreshLast e1)
        current_bytes := c0.current_bytes - oldSize + newSize }
  | none =>
    let size := messageSizeBytes message
    let e1 : ChatEntry :=
      { entry with
          messages := entry.messages ++ [message]
          message_bytes := entry.message_bytes + size }
    { c0 with
        chats := setChat c0.chats message.chat_id (refreshLast e1)
        current_bytes := c0.current_bytes + size }

/-- `ChatCache::update_message` (cache.rs 578-601). -/
def ChatCache.update_message (c : ChatCache) (chat_id message_id : Int)
    (text : String) (timestamp : Int) : ChatCache :=
  match findChat? c.chats chat_id with
  | none => c
  | some entry =>
    match modifyFirstMsg message_id
        (fun old => { old with text := text, edit_timestamp := some timestamp })
        entry.messages with
    | none => c
    | some (old, new, msgs') =>
      let oldSize := messageSizeBytes old
      let newSize := messageSizeBytes new
      let entry' : ChatEntry :=
        { entry with
            messages := msgs'
            message_bytes := entry.message_bytes - oldSize + newSize
            updated_at := timestamp }
      { c with
          chats := setChat c.chats chat_id entry'
          current_bytes := c.current_bytes - oldSize + newSize }

/-- The `while entry.messages.len() > max` pop-front loop of
`enforce_limits` (cache.rs 606-615), threading the entry's
`message_bytes`, the cache's `current_bytes` (both via `saturating_sub`,
which is `Nat` subtraction) and the evicted-message count. -/
def popLoop (maxMsgs : Nat) :
    List CachedMessage → Nat → Nat → Nat → List CachedMessage × Nat × Nat × Nat
  | [], mb, cb, cnt => ([], mb, cb, cnt)
  | m :: rest, mb, cb, cnt =>
    if maxMsgs < (m :: rest).length then
      popLoop maxMsgs rest (mb - messageSizeBytes m) (cb - messageSizeBytes m) (cnt + 1)
    else (m :: rest, mb, cb, cnt)

/-- The per-chat message-limit pass of `enforce_limits` over all entries
(cache.rs 605-616): returns the new chats, the new `current_bytes` and the
number of evicted messages. -/
def trimEntries (maxMsgs : Nat) :
    List (Int × ChatEntry) → Nat → Nat → List (Int × ChatEntry) × Nat × Nat
  | [], cb, cnt => ([], cb, cnt)
  | (k, e) :: rest, cb, cnt =>
    let r := popLoop maxMsgs e.messages e.message_bytes cb cnt
    let r' := trimEntries maxMsgs rest r.2.2.1 r.2.2.2
    ((k, { e with messages := r.1, message_bytes := r.2.1 }) :: r'.1, r'.2.1, r'.2.2)

/-- `ChatCache::least_recent_chat` (cache.rs 641-646): `min_by_key` over
the iteration order returns the first entry with minimal `updated_at`. -/
def leastRecentChat (chats : List (Int × ChatEntry)) : Option Int :=
  (chats.foldl
    (fun acc p =>
      match acc with
      | none => some p
      | some q => if p.2.updated_at < q.2.updated_at then some p else acc)
    none).map (·.1)

/-- `ChatCache::remove_chat` (cache.rs 648-656): returns the cache and the
`(chats_evicted, messages_evicted)` increments. -/
def ChatCache.remove_chat (c : ChatCache) (id : Int) : ChatCache × Nat × Nat :=
  match findChat? c.chats id with
  | some entry =>
    ({ c with chats := removeChatList c.chats id,
              current_bytes := c.current_bytes - (entry.message_bytes + entry.summary_bytes) },
     1, entry.messages.length)
  | none => (c, 0, 0)

/-- The `while guard { remove least_recent }` loops of `enforce_limits`
(cache.rs 618-636). The fuel is called with `chats.length + 1`, which is
enough because each successful removal deletes one entry. -/
def evictLoop (guard : ChatCache → Bool) :
    Nat → ChatCache → EvictionStats → ChatCache × EvictionStats
  | 0, c, st => (c, st)
  | fuel + 1, c, st =>
    if guard c then
      match leastRecentChat c.chats with
      | some id =>
        let r := c.remove_chat id
        evictLoop guard fuel r.1
          ⟨st.chats_evicted + r.2.1, st.messages_evicted + r.2.2⟩
      | none => (c, st)
    else (c, st)

/-- `ChatCache::enforce_limits` (cache.rs 603-639). -/
def ChatCache.enforce_limits (c : ChatCache) : ChatCache × EvictionStats :=
  let t :=
    if 0 < c.limits.max_messages_per_chat then
      trimEntries c.limits.max_messages_per_chat c.chats c.current_bytes 0
    else (c.chats, c.current_bytes, 0)
  let c1 : ChatCache := { c with chats := t.1, current_bytes := t.2.1 }
  let st1 : EvictionStats := ⟨0, t.2.2⟩
  let r2 :=
    if 0 < c.limits.max_chats then
      evictLoop (fun s => decide (s.limits.max_chats < s.chats.length))
        (c1.chats.length + 1) c1 st1
    else (c1, st1)
  if 0 < c.limits.max_bytes then
    evictLoop (fun s => decide (s.limits.max_bytes < s.current_bytes))
      (r2.1.chats.length + 1) r2.1 r2.2
  else r2

/-- `ChatCache::apply_event` (cache.rs 472-503). -/
def ChatCache.apply_event (c : ChatCache) (event : DomainEvent) :
    ChatCache × EvictionStats :=
  let c' :=
    match event with
    | .MessageNew m =>
      c.insert_message
        { chat_id := m.chat_id, message_id := m.message_id, author_id := m.author_id,
          timestamp := m.timestamp, edit_timestamp := none, text := m.text,
          outgoing := m.outgoing }
    | .MessageEdited m => c.update_message m.chat_id m.message_id m.text m.timestamp
    | .ReadReceipt r =>
      match findChat? c.chats r.chat_id with
      | some entry =>
        let entry' : ChatEntry :=
          { entry with
              summary := { entry.summary with unread_count := some 0 }
              updated_at := r.timestamp }
        { c with chats := setChat c.chats r.chat_id entry' }
      | none => c
    | .Typing _ => c
  c'.enforce_limits

/-- `ChatCache::upsert_chat` (cache.rs 505-508). -/
def ChatCache.upsert_chat (c : ChatCache) (summary : ChatSummary) :
    ChatCache × EvictionStats :=
  (c.insert_chat summary).enforce_limits

/-- `ChatCache::from_snapshot` (cache.rs 419-429). -/
def ChatCache.from_snapshot (snapshot : CacheSnapshot) (limits : CacheLimits) :
    ChatCache :=
  let c := snapshot.chats.foldl (fun c chat => c.insert_chat chat) (ChatCache.new limits)
  let c := snapshot.messages.foldl (fun c m => c.insert_message m) c
  c.enforce_limits.1

/-- `ChatCache::snapshot` (cache.rs 435-443); messages are the
concatenation of the per-entry deques in iteration order. -/
def ChatCache.snapshot (c : ChatCache) : CacheSnapshot :=
  { chats := c.chats.map (fun p => p.2.summary)
    messages := c.chats.foldl (fun acc p => acc ++ p.2.messages) [] }

/-- `ChatCache::chat_summaries` (cache.rs 445-450). -/
def ChatCache.chat_summaries (c : ChatCache) : List ChatSummary :=
  c.chats.map (fun p => p.2.summary)

/-- `ChatCache::messages_for_chat` (cache.rs 452-470):
`iter().rev().take(limit)` collected and reversed is the suffix of the
last `limit` messages in insertion order. -/
def ChatCache.messages_for_chat (c : ChatCache) (chat_id : Int)
    (limit : Option Nat) : List CachedMessage :=
  match findChat? c.chats chat_id with
  | none => []
  | some entry =>
    match limit with
    | some limit => ((entry.messages.reverse.take limit).reverse)
    | none => entry.messages

/-- A send-pipeline configuration with `retry_base_delay > retry_max_delay`
(the struct's public fields permit it; only the app config loader
normalizes). -/
def badBackoffConfig : SendPipelineConfig :=
  { queue_limit := 256
    max_retry_attempts := none
    retry_base_delay_ms := 10
    retry_max_delay_ms := 5 }

/-! ## Stable insertion sort

`Vec::sort_by` (ui_state.rs 52) is a stable sort and the SQLite
`ORDER BY chat_id, timestamp` (cache.rs 214) is a total sort by that key;
both are embedded as this stable insertion sort, which kernel-evaluates. -/

/-- Insert `x` into `l`, before the first element `y` with `le x y`. -/
def insertLe {α : Type} (le : α → α → Bool) (x : α) : List α → List α
  | [] => [x]
  | y :: ys => if le x y then x :: y :: ys else y :: insertLe le x ys

/-- Stable insertion sort by the boolean relation `le`. -/
def insertionSort {α : Type} (le : α → α → Bool) : List α → List α
  | [] => []
  | x :: xs => insertLe le x (insertionSort le xs)

/-! ## SQLite cache store model (`SqliteCacheStore`, cache.rs 185-296)

`save` deletes both tables and reinserts the snapshot inside one
transaction; the durable state is therefore exactly the inserted rows, in
order. `load` reads the `chats` table in stored order and the `messages`
table with `ORDER BY chat_id, timestamp`. -/

/-- A row of the `chats` table (schema cache.rs 15-23). `unread_count` is
stored as a nullable `INTEGER` (`i64`). -/
structure ChatRow where
  chat_id : Int
  title : String
  peer_kind : String
  last_message_id : Option Int
  last_message_at : Option Int
  unread_count : Option Int
  updated_at : Int
deriving DecidableEq

/-- A row of the `messages` table (schema cache.rs 24-33); `outgoing` is
stored as an `INTEGER`. -/
structure MessageRow where
  chat_id : Int
  message_id : Int
  author_id : Int
  timestamp : Int
  edit_timestamp : Option Int
  text : String
  outgoing : Int
deriving DecidableEq

/-- The `chats` insert binding of `save` (cache.rs 246-268):
`updated_at = chat.last_message_at.unwrap_or(0)` (line 250). -/
def chatRowOf (chat : ChatSummary) : ChatRow :=
  { chat_id := chat.chat_id
    title := chat.title
    peer_kind := chat.peer_kind.asStr
    last_message_id := chat.last_message_id
    last_message_at := chat.last_message_at
    unread_count := chat.unread_count.map (fun v => (v : Int))
    updated_at := chat.last_message_at.getD 0 }

/-- The `messages` insert binding of `save` (cache.rs 271-291). -/
def messageRowOf (m : CachedMessage) : MessageRow :=
  { chat_id := m.chat_id
    message_id := m.message_id
    author_id := m.author_id
    timestamp := m.timestamp
    edit_timestamp := m.edit_timestamp
    text := m.text
    outgoing := if m.outgoing then 1 else 0 }

/-- `SqliteCacheStore::save`, chats table contents. -/
def sqliteSaveChats (s : CacheSnapshot) : List ChatRow := s.chats.map chatRowOf

/-- `SqliteCacheStore::save`, messages table contents. -/
def sqliteSaveMessages (s : CacheSnapshot) : List MessageRow := s.messages.map messageRowOf

/-- The `value as u32` cast applied to the loaded `unread_count` `i64`
(cache.rs 209): a wrapping cast, i.e. the value modulo `2^32`. -/
def u32cast (v : Int) : Nat := (v % (2 ^ 32 : Int)).toNat

/-- One `chats` row as decoded by `load` (cache.rs 194-211); the stored
`updated_at` is read and discarded (line 201). -/
def summaryOfRow (r : ChatRow) : ChatSummary :=
  { chat_id := r.chat_id
    title := r.title
    peer_kind := ChatPeerKind.fromStr r.peer_kind
    last_message_id := r.last_message_id
    last_message_at := r.last_message_at
    unread_count := r.unread_count.map u32cast }

/-- One `messages` row as decoded by `load` (cache.rs 216-233);
`outgoing = (column != 0)`. -/
def messageOfRow (r : MessageRow) : CachedMessage :=
  { chat_id := r.chat_id
    message_id := r.message_id
    author_id := r.author_id
    timestamp := r.timestamp
    edit_timestamp := r.edit_timestamp
    text := r.text
    outgoing := decide (r.outgoing ≠ 0) }

/-- The `ORDER BY chat_id, timestamp` key order of the messages SELECT
(cache.rs 214). -/
def msgRowLE (a b : MessageRow) : Bool :=
  decide (a.chat_id < b.chat_id ∨ (a.chat_id = b.chat_id ∧ a.timestamp ≤ b.timestamp))

/-- `SqliteCacheStore::load` (cache.rs 186-237) applied to stored rows. -/
def sqliteLoad (chatRows : List ChatRow) (msgRows : List MessageRow) : CacheSnapshot :=
  { chats := chatRows.map summaryOfRow
    messages := (insertionSort msgRowLE msgRows).map messageOfRow }

/-- A snapshot the SQLite store can persist: primary keys `chat_id` and
`(chat_id, message_id)` are unique (the plain INSERTs would otherwise abort
the transaction), and `unread_count` values fit in `u32` (their Rust
type). -/
def validSnapshot (s : CacheSnapshot) : Prop :=
  (s.chats.map (fun c => c.chat_id)).Nodup ∧
  (s.messages.map (fun m => (m.chat_id, m.message_id))).Nodup ∧
  ∀ chat ∈ s.chats, ∀ u, chat.unread_count = some u → u < 2 ^ 32

/-! ## Cache manager lock model (`CacheManager`, cache.rs 298-380)

The cache sits behind one `RwLock`. Acquisition is modelled by a
`poisoned` flag: `read()`/`write()` return `Err(PoisonError)` carrying the
guard when a writer panicked while holding the lock. -/

/-- Result of acquiring the lock: `Err` still carries the inner state. -/
def lockResult (poisoned : Bool) (cache : ChatCache) : Except ChatCache ChatCache :=
  if poisoned then .error cache else .ok cache

/-- `CacheManager::chat_summaries` (cache.rs 363-366):
`self.inner.read().map(|cache| cache.chat_summaries()).unwrap_or_default()`
— an `Err` from a poisoned lock becomes `Vec::new()`. -/
def managerChatSummaries (poisoned : Bool) (cache : ChatCache) : List ChatSummary :=
  match lockResult poisoned cache with
  | .ok c => c.chat_summaries
  | .error _ => []

/-- `CacheManager::messages_for_chat` (cache.rs 368-374), same
`unwrap_or_default` shape as `chat_summaries`. -/
def managerMessagesForChat (poisoned : Bool) (cache : ChatCache) (chat_id : Int)
    (limit : Option Nat) : List CachedMessage :=
  match lockResult poisoned cache with
  | .ok c => c.messages_for_chat chat_id limit
  | .error _ => []

/-- `CacheManager::apply_event` (cache.rs 331-345): a poisoned write lock
is recovered with `poisoned.into_inner()` and the event is applied to the
inner state. -/
def managerApplyEvent (poisoned : Bool) (cache : ChatCache) (event : DomainEvent) :
    ChatCache × EvictionStats :=
  match lockResult poisoned cache with
  | .ok c => c.apply_event event
  | .error c => c.apply_event event

/-- `CacheManager::upsert_chat` (cache.rs 347-361), same recovery shape as
`apply_event`. -/
def managerUpsertChat (poisoned : Bool) (cache : ChatCache) (summary : ChatSummary) :
    ChatCache × EvictionStats :=
  match lockResult poisoned cache with
  | .ok c => c.upsert_chat summary
  | .error c => c.upsert_chat summary

/-! ## Cache→view projector model (`app/src/ui_state.rs`) -/

/-- `ui::view::ChatListItem` as populated by `map_chat_summaries`. -/
structure ChatListItem where
  id : Int
  title : String
  unread : Nat
  is_selected : Bool
deriving DecidableEq

/-- `i64::cmp`. -/
def ordCmp (x y : Int) : Ordering :=
  if x < y then .lt else if x = y then .eq else .gt

/-- `String::cmp` (lexicographic; UTF-8 byte order coincides with
codepoint order). -/
def strCmp (x y : String) : Ordering :=
  if x < y then .lt else if x = y then .eq else .gt

/-- The `sort_by` comparator of `map_chat_summaries` (ui_state.rs 52-59):
`right_ts.cmp(&left_ts)` with `None` as 0, ties broken by
`left.title.cmp(&right.title)`. -/
def summaryCmp (l r : ChatSummary) : Ordering :=
  match ordCmp (r.last_message_at.getD 0) (l.last_message_at.getD 0) with
  | .eq => strCmp l.title r.title
  | o => o

/-- `sort_by` keeps adjacent pairs with comparator at most `Equal`. -/
def summaryLE (a b : ChatSummary) : Bool := summaryCmp a b != Ordering.gt

/-- `chat_title` (ui_state.rs 78-84): `title.trim().is_empty()` holds
exactly when every character of the title is whitespace. -/
def chatTitle (chat : ChatSummary) : String :=
  if chat.title.toList.all Char.isWhitespace then "Chat " ++ toString chat.chat_id
  else chat.title

/-- `map_chat_summaries` (ui_state.rs 47-76). -/
def mapChatSummaries (summaries : List ChatSummary) (selected_chat : Option Int) :
    List ChatListItem × Option Int :=
  let sorted := insertionSort summaryLE summaries
  let resolved :=
    match selected_chat.filter (fun id => sorted.any (fun chat => chat.chat_id == id)) with
    | some id => some id
    | none => sorted.head?.map (fun chat => chat.chat_id)
  (sorted.map (fun chat =>
      { id := chat.chat_id
        title := chatTitle chat
        unread := chat.unread_count.getD 0
        is_selected := decide (resolved = some chat.chat_id) }),
   resolved)

/-! ## Invariants -/

/-- Total byte size of a message list. -/
def msum (msgs : List CachedMessage) : Nat := (msgs.map messageSizeBytes).sum

/-- Sum of the per-entry byte counters over the chat map. -/
def totalBytes (chats : List (Int × ChatEntry)) : Nat :=
  (chats.map (fun p => p.2.message_bytes + p.2.summary_bytes)).sum

/-- The entry's byte counters agree with the spec's accounting:
`text.length + 64` per message, `title.length + 64` for the summary. -/
def entryBytesOk (e : ChatEntry) : Prop :=
  e.message_bytes = msum e.messages ∧ e.summary_bytes = summarySizeBytes e.summary

/-- C4's invariant: every entry's counters are exact and `current_bytes`
is their sum. -/
def cacheBytesOk (c : ChatCache) : Prop :=
  (∀ p ∈ c.chats, entryBytesOk p.2) ∧ c.current_bytes = totalBytes c.chats

/-- Every `saturating_sub` the cache performs subtracts a quantity below
its minuend: each message's size is within its entry's `message_bytes`,
and each entry's bytes are within `current_bytes`. -/
def underflowFree (c : ChatCache) : Prop :=
  ∀ p ∈ c.chats,
    p.2.message_bytes + p.2.summary_bytes ≤ c.current_bytes ∧
    ∀ m ∈ p.2.messages, messageSizeBytes m ≤ p.2.message_bytes

/-- C2's invariant for one entry: if the deque is non-empty, the summary's
`last_message_id`/`last_message_at` are the back element's id and
timestamp. -/
def lastOk (e : ChatEntry) : Prop :=
  e.messages ≠ [] →
    e.summary.last_message_id = e.messages.getLast?.map (fun m => m.message_id) ∧
    e.summary.last_message_at = e.messages.getLast?.map (fun m => m.timestamp)

/-- C2's invariant over the whole cache. -/
def cacheLastOk (c : ChatCache) : Prop := ∀ p ∈ c.chats, lastOk p.2

/-- C10's invariant: eviction recency equals `last_message_at` (or 0). -/
def updOk (e : ChatEntry) : Prop :=
  e.updated_at = e.summary.last_message_at.getD 0

/-- C10's invariant over the whole cache. -/
def cacheUpdOk (c : ChatCache) : Prop := ∀ p ∈ c.chats, updOk p.2

instance (e : ChatEntry) : Decidable (entryBytesOk e) := by
  unfold entryBytesOk; infer_instance

instance (c : ChatCache) : Decidable (cacheBytesOk c) := by
  unfold cacheBytesOk entryBytesOk; infer_instance

instance (c : ChatCache) : Decidable (underflowFree c) := by
  unfold underflowFree; infer_instance

instance (e : ChatEntry) : Decidable (lastOk e) := by
  unfold lastOk; infer_instance

instance (c : ChatCache) : Decidable (cacheLastOk c) := by
  unfold cacheLastOk lastOk; infer_instance

instance (e : ChatEntry) : Decidable (updOk e) := by
  unfold updOk; infer_instance

instance (c : ChatCache) : Decidable (cacheUpdOk c) := by
  unfold cacheUpdOk updOk; infer_instance

instance (s : CacheSnapshot) : Decidable (validSnapshot s) := by
  unfold validSnapshot; infer_instance

/-- The chat-list ordering as the spec states it: `last_message_at DESC`
with `None` treated as 0, ties broken by `title ASC`. Written from the
spec's words, to be compared with the code's `sort_by` comparator. -/
def specChatOrder (a b : ChatSummary) : Prop :=
  b.last_message_at.getD 0 < a.last_message_at.getD 0 ∨
    (a.last_message_at.getD 0 = b.last_message_at.getD 0 ∧ a.title ≤ b.title)

/-! ## Concrete fixtures for counterexamples and witnesses -/

/-- A cache holding one chat with one message, built by applying a
`MessageNew` to the empty unlimited cache. -/
def demoCache : ChatCache :=
  ((ChatCache.new ⟨0, 0, 0⟩).apply_event
    (.MessageNew ⟨1, 10, 1, 100, "hi", false⟩)).1

/-- An upsert summary whose `last_message_id`/`last_message_at` disagree
with the back of `demoCache`'s chat-1 deque. -/
def mismatchSummary : ChatSummary :=
  ⟨1, "t", .User, some 999, some 5, none⟩

/-- A two-chat snapshot with one message, used as a round-trip witness. -/
def demoSnapshot : CacheSnapshot :=
  { chats := [⟨1, "Chat", .User, some 2, some 123, some 1⟩,
              ⟨2, "Other", .Group, none, none, none⟩]
    messages := [⟨1, 2, 1, 123, none, "hello", true⟩,
                 ⟨1, 1, 1, 100, some 110, "first", false⟩] }

/-- Two chat summaries with distinct ids and timestamps, used as a
projector witness. -/
def demoSummaries : List ChatSummary :=
  [⟨1, "General", .User, some 100, some 100, some 1⟩,
   ⟨2, "Product", .User, some 300, some 300, some 1⟩]

/-! ## Theorems -/

/-! ### Backoff characterization (claim C1) -/

lemma backoffLoop_eq (max_ms : Nat) (hmax : max_ms ≤ U64MAX) :
    ∀ (k delay : Nat), delay ≤ max_ms →
      backoffLoop max_ms delay k = min max_ms (delay * 2 ^ k) := by
  intro k
  induction k with
  | zero =>
    intro delay hd
    simp [backoffLoop, Nat.min_eq_right hd]
  | succ k ih =>
    intro delay hd
    simp only [backoffLoop]
    by_cases hge : max_ms ≤ satMul2 delay
    · have h2 : max_ms ≤ delay * 2 := le_trans hge (min_le_left _ _)
      have hpow : delay * 2 ≤ delay * 2 ^ (k + 1) := by
        have : (2 : Nat) ≤ 2 ^ (k + 1) := by
          calc (2 : Nat) = 2 ^ 1 := by norm_num
          _ ≤ 2 ^ (k + 1) := Nat.pow_le_pow_right (by norm_num) (by omega)
        exact Nat.mul_le_mul_left delay this
      simp [hge, Nat.min_eq_left (le_trans h2 hpow)]
    · have hlt : satMul2 delay < max_ms := Nat.lt_of_not_le hge
      have hsat : satMul2 delay = delay * 2 := by
        unfold satMul2
        rcases Nat.le_total (delay * 2) U64MAX with h | h
        · exact Nat.min_eq_left h
        · have heq : satMul2 delay = U64MAX := Nat.min_eq_right h
          omega
      rw [if_neg hge, hsat]
      have ih2 := ih (delay * 2) (by omega)
      rw [ih2]
      congr 1
      rw [pow_succ]
      ring

/-- C1 (corrected). For every send-pipeline configuration whose
`retry_base_delay` does not exceed `retry_max_delay` (the app configuration
loader guarantees this by raising the max to at least the base,
config.rs 177) and every attempt `n ≥ 1`: the code's `backoff_delay`
follows the spec formula `min(retry_max_delay, retry_base_delay · 2^(n-1))`,
is monotone in `n`, and is bounded by `retry_max_delay`. -/
theorem backoff_monotone_bounded (config : SendPipelineConfig) (n : Nat)
    (hn : 1 ≤ n)
    (hbm : config.retry_base_delay_ms ≤ config.retry_max_delay_ms)
    (hmax : config.retry_max_delay_ms ≤ U64MAX) :
    backoffDelayMs n config =
      min config.retry_max_delay_ms (config.retry_base_delay_ms * 2 ^ (n - 1)) ∧
    backoffDelayMs n config ≤ backoffDelayMs (n + 1) config ∧
    backoffDelayMs n config ≤ config.retry_max_delay_ms := by
  have key : ∀ m : Nat, 1 ≤ m →
      backoffDelayMs m config =
        min config.retry_max_delay_ms (config.retry_base_delay_ms * 2 ^ (m - 1)) := by
    intro m hm
    unfold backoffDelayMs
    by_cases h0 : config.retry_base_delay_ms = 0 ∨ config.retry_max_delay_ms = 0
    · have hb0 : config.retry_base_delay_ms = 0 := by omega
      simp [h0, hb0]
    · rw [if_neg h0, backoffLoop_eq config.retry_max_delay_ms hmax (m - 1)
        config.retry_base_delay_ms hbm]
  refine ⟨key n hn, ?_, ?_⟩
  · rw [key n hn, key (n + 1) (by omega)]
    have hpow : config.retry_base_delay_ms * 2 ^ (n - 1) ≤
        config.retry_base_delay_ms * 2 ^ (n + 1 - 1) :=
      Nat.mul_le_mul_left _ (Nat.pow_le_pow_right (by norm_num) (by omega))
    exact min_le_min (le_refl _) hpow
  · rw [key n hn]
    exact min_le_left _ _

/-- Witness for `backoff_monotone_bounded` at the `Default` configuration
and attempt 3. -/
theorem backoff_monotone_bounded_witness :
    backoffDelayMs 3 SendPipelineConfig.default = min 30000 (500 * 2 ^ 2) ∧
    backoffDelayMs 3 SendPipelineConfig.default ≤ backoffDelayMs 4 SendPipelineConfig.default ∧
    backoffDelayMs 3 SendPipelineConfig.default ≤ 30000 :=
  backoff_monotone_bounded SendPipelineConfig.default 3 (by decide) (by decide) (by decide)


/-- Counterexample to C1 as stated: with `retry_base_delay = 10ms` and
`retry_max_delay = 5ms`, `backoff(1) = 10ms` exceeds the max and
`backoff(2) = 5ms < backoff(1)`, so both monotonicity and the bound fail. -/
theorem backoff_monotone_bounded_cex :
    ¬ (backoffDelayMs 1 badBackoffConfig ≤ backoffDelayMs 2 badBackoffConfig ∧
       backoffDelayMs 1 badBackoffConfig ≤ badBackoffConfig.retry_max_delay_ms) := by
  decide

/-! ### Retry classification (claim C6) -/

/-- C6 (confirmed). For a server RPC error: if its name is `FLOOD_WAIT`,
`SLOWMODE_WAIT` or `FLOOD_PREMIUM_WAIT` and its value is positive, the
decision is `RetryAfter(value seconds)` (here in milliseconds); any other
server RPC error with code below 500 yields `Fail{retryable:false}`. -/
theorem retry_decision_rpc (rpc : RpcError) (attempt : Nat) (config : SendPipelineConfig) :
    (∀ v : Nat,
      (rpc.name = "FLOOD_WAIT" ∨ rpc.name = "SLOWMODE_WAIT" ∨ rpc.name = "FLOOD_PREMIUM_WAIT") →
      rpc.value = some v → 0 < v →
      retryDecision (.Invocation (.Rpc rpc)) attempt config = .RetryAfter (v * 1000)) ∧
    (¬ ((rpc.name = "FLOOD_WAIT" ∨ rpc.name = "SLOWMODE_WAIT" ∨
          rpc.name = "FLOOD_PREMIUM_WAIT") ∧ ∃ v, rpc.value = some v ∧ 0 < v) →
      rpc.code < 500 →
      retryDecision (.Invocation (.Rpc rpc)) attempt config = .Fail false) := by
  constructor
  · intro v hname hval hpos
    have hisname : isRateLimitName rpc.name = true := by
      unfold isRateLimitName
      rcases hname with h | h | h <;> simp [h]
    have hrl : rateLimitDelayMs rpc = some (v * 1000) := by
      unfold rateLimitDelayMs
      rw [if_pos hisname, hval]
      simp [Option.filter]
      omega
    simp [retryDecision, hrl]
  · intro hnot hcode
    have hrl : rateLimitDelayMs rpc = none := by
      unfold rateLimitDelayMs
      by_cases hisname : isRateLimitName rpc.name = true
      · rw [if_pos hisname]
        have hname : rpc.name = "FLOOD_WAIT" ∨ rpc.name = "SLOWMODE_WAIT" ∨
            rpc.name = "FLOOD_PREMIUM_WAIT" := by
          unfold isRateLimitName at hisname
          rcases Bool.or_eq_true_iff.mp hisname with h | h
          · rcases Bool.or_eq_true_iff.mp h with h1 | h1
            · exact Or.inl (by simpa using h1)
            · exact Or.inr (Or.inl (by simpa using h1))
          · exact Or.inr (Or.inr (by simpa using h))
        cases hv : rpc.value with
        | none => rfl
        | some v =>
          have hv0 : v = 0 := by
            by_contra hne
            exact hnot ⟨hname, v, hv, by omega⟩
          simp [hv0, Option.filter]
      · rw [if_neg hisname]
    have hc : ¬ (500 ≤ rpc.code) := by omega
    simp [retryDecision, hrl, hc]

/-- Witness for `retry_decision_rpc`: a `FLOOD_WAIT` with value 1 yields
`RetryAfter 1000ms`, applied via the first conjunct. -/
theorem retry_decision_rpc_witness :
    retryDecision (.Invocation (.Rpc ⟨"FLOOD_WAIT", 420, some 1⟩)) 1
      SendPipelineConfig.default = .RetryAfter (1 * 1000) :=
  (retry_decision_rpc ⟨"FLOOD_WAIT", 420, some 1⟩ 1 SendPipelineConfig.default).1
    1 (Or.inl rfl) rfl (by decide)

/-! ### Retry budget promotion (claim C7) -/

/-- C7 (confirmed). When the transport error is classified `RetryAfter`:
if `max_retry_attempts = some max` and `attempt ≥ max`, the item's
published terminal status is `Failed{retryable:true, attempts = attempt}`
and it is not re-queued; otherwise it is re-queued with
`Queued{attempt, next_retry_in = Some(delay)}` and a fresh sequence. -/
theorem process_retry_after (item : QueueItemM) (e : SendError)
    (config : SendPipelineConfig) (now seq delay : Nat)
    (hdec : retryDecision e (satAdd1U32 item.attempts) config = .RetryAfter delay) :
    ((∀ m, config.max_retry_attempts = some m → m ≤ satAdd1U32 item.attempts →
        processQueueItem item (.error e) config now seq =
          ⟨[.Sending (satAdd1U32 item.attempts),
            .Failed ⟨e, satAdd1U32 item.attempts, true⟩], none, seq⟩) ∧
     (exceededMaxAttempts (satAdd1U32 item.attempts) config.max_retry_attempts = false →
        processQueueItem item (.error e) config now seq =
          ⟨[.Sending (satAdd1U32 item.attempts),
            .Queued (satAdd1U32 item.attempts) (some delay)],
           some { item with
                    attempts := satAdd1U32 item.attempts,
                    next_attempt := now + delay,
                    sequence := (seq + 1) % 2 ^ 64 },
           (seq + 1) % 2 ^ 64⟩)) := by
  constructor
  · intro m hm hle
    have hex : exceededMaxAttempts (satAdd1U32 item.attempts) config.max_retry_attempts = true := by
      unfold exceededMaxAttempts
      rw [hm]
      simpa using hle
    simp [processQueueItem, hdec, hex]
  · intro hex
    simp [processQueueItem, hdec, hex]

/-- Witness for `process_retry_after`: an I/O error at attempt 1 with
`max_retry_attempts = some 1` terminates as retryable `Failed`. -/
theorem process_retry_after_witness :
    processQueueItem ⟨1, 0, 0, 1⟩ (.error (.Invocation .Io))
      ⟨4, some 1, 5, 5⟩ 0 1 =
      ⟨[.Sending 1, .Failed ⟨.Invocation .Io, 1, true⟩], none, 1⟩ :=
  (process_retry_after ⟨1, 0, 0, 1⟩ (.Invocation .Io) ⟨4, some 1, 5, 5⟩ 0 1
      (backoffDelayMs 1 ⟨4, some 1, 5, 5⟩) (by decide)).1 1 rfl (by decide)

/-! ### Association-list and message-list lemmas -/

lemma findChat?_mem {chats : List (Int × ChatEntry)} {id : Int} {e : ChatEntry}
    (h : findChat? chats id = some e) : (id, e) ∈ chats := by
  induction chats with
  | nil => simp [findChat?] at h
  | cons p rest ih =>
    obtain ⟨k, v⟩ := p
    by_cases hk : k = id
    · subst hk
      rw [findChat?, if_pos rfl] at h
      obtain rfl : v = e := by injection h
      exact List.mem_cons_self _ _
    · rw [findChat?, if_neg hk] at h
      exact List.mem_cons_of_mem _ (ih h)

lemma mem_setChat {chats : List (Int × ChatEntry)} {id : Int} {e' : ChatEntry}
    {q : Int × ChatEntry} (h : q ∈ setChat chats id e') : q = (id, e') ∨ q ∈ chats := by
  induction chats with
  | nil => simp [setChat] at h
  | cons p rest ih =>
    obtain ⟨k, v⟩ := p
    by_cases hk : k = id
    · subst hk
      rw [setChat, if_pos rfl] at h
      rcases List.mem_cons.mp h with rfl | h'
      · exact Or.inl rfl
      · exact Or.inr (List.mem_cons_of_mem _ h')
    · rw [setChat, if_neg hk] at h
      rcases List.mem_cons.mp h with rfl | h'
      · exact Or.inr (List.mem_cons_self _ _)
      · rcases ih h' with h2 | h2
        · exact Or.inl h2
        · exact Or.inr (List.mem_cons_of_mem _ h2)

lemma mem_removeChatList {chats : List (Int × ChatEntry)} {id : Int}
    {q : Int × ChatEntry} (h : q ∈ removeChatList chats id) : q ∈ chats := by
  induction chats with
  | nil => simp [removeChatList] at h
  | cons p rest ih =>
    obtain ⟨k, v⟩ := p
    by_cases hk : k = id
    · subst hk
      rw [removeChatList, if_pos rfl] at h
      exact List.mem_cons_of_mem _ h
    · rw [removeChatList, if_neg hk] at h
      rcases List.mem_cons.mp h with rfl | h'
      · exact List.mem_cons_self _ _
      · exact List.mem_cons_of_mem _ (ih h')

lemma modifyFirstMsg_eq_some {mid : Int} {f : CachedMessage → CachedMessage} :
    ∀ {msgs : List CachedMessage} {o n : CachedMessage} {msgs' : List CachedMessage},
      modifyFirstMsg mid f msgs = some (o, n, msgs') →
      ∃ pre post, msgs = pre ++ o :: post ∧ msgs' = pre ++ n :: post ∧ n = f o := by
  intro msgs
  induction msgs with
  | nil => intro o n msgs' h; simp [modifyFirstMsg] at h
  | cons x xs ih =>
    intro o n msgs' h
    by_cases hx : x.message_id = mid
    · rw [modifyFirstMsg, if_pos hx] at h
      simp only [Option.some.injEq, Prod.mk.injEq] at h
      obtain ⟨rfl, rfl, rfl⟩ := h
      exact ⟨[], xs, rfl, rfl, rfl⟩
    · rw [modifyFirstMsg, if_neg hx] at h
      cases hrec : modifyFirstMsg mid f xs with
      | none => rw [hrec] at h; simp at h
      | some t =>
        obtain ⟨o₁, n₁, ys⟩ := t
        rw [hrec] at h
        simp only [Option.some.injEq, Prod.mk.injEq] at h
        obtain ⟨rfl, rfl, hl⟩ := h
        obtain ⟨pre, post, h1, h2, h3⟩ := ih hrec
        exact ⟨x :: pre, post, by rw [h1]; rfl, by rw [← hl, h2]; rfl, h3⟩

lemma suffix_getLast? {α : Type} {l₁ l₂ : List α} (h : l₁ <:+ l₂) (hne : l₁ ≠ []) :
    l₂.getLast? = l₁.getLast? := by
  obtain ⟨t, rfl⟩ := h
  obtain ⟨a, ha⟩ := Option.isSome_iff_exists.mp (List.getLast?_isSome.mpr hne)
  rw [List.getLast?_append, ha]
  rfl

lemma getLast?_append_cons {α : Type} (pre : List α) (x : α) (post : List α) :
    (pre ++ x :: post).getLast? = (x :: post).getLast? := by
  obtain ⟨a, ha⟩ := Option.isSome_iff_exists.mp
    (List.getLast?_isSome.mpr (List.cons_ne_nil x post))
  rw [List.getLast?_append, ha]
  rfl

lemma getLast?_cons_of_ne {α : Type} (x : α) {post : List α} (h : post ≠ []) :
    (x :: post).getLast? = post.getLast? := by
  cases post with
  | nil => exact absurd rfl h
  | cons y ys => exact List.getLast?_cons_cons

lemma popLoop_suffix (maxMsgs : Nat) :
    ∀ (msgs : List CachedMessage) (mb cb cnt : Nat),
      (popLoop maxMsgs msgs mb cb cnt).1 <:+ msgs := by
  intro msgs
  induction msgs with
  | nil => intro mb cb cnt; simp [popLoop]
  | cons m rest ih =>
    intro mb cb cnt
    rw [popLoop]
    by_cases hg : maxMsgs < (m :: rest).length
    · rw [if_pos hg]
      exact (ih _ _ _).trans (List.suffix_cons m rest)
    · rw [if_neg hg]

/-! ### The back-of-deque invariant (claim C2) -/

lemma lastOk_refreshLast (e : ChatEntry) : lastOk (refreshLast e) := by
  unfold refreshLast
  cases hl : e.messages.getLast? with
  | none =>
    intro hne
    have h := List.getLast?_isSome.mpr hne
    rw [hl] at h
    simp at h
  | some last =>
    intro _
    refine ⟨?_, ?_⟩ <;> simp [hl]

lemma lastOk_of_suffix {p q : ChatEntry} (hsum : q.summary = p.summary)
    (hsuf : q.messages <:+ p.messages) (hp : lastOk p) : lastOk q := by
  intro hne
  have hgl : p.messages.getLast? = q.messages.getLast? := suffix_getLast? hsuf hne
  have hpne : p.messages ≠ [] := by
    intro h0
    rw [h0, List.suffix_nil] at hsuf
    exact hne hsuf
  obtain ⟨h1, h2⟩ := hp hpne
  rw [hsum, h1, h2, hgl]
  exact ⟨rfl, rfl⟩

lemma insert_chat_all_empty {c : ChatCache} {s : ChatSummary}
    (h : ∀ p ∈ c.chats, p.2.messages = []) :
    ∀ p ∈ (c.insert_chat s).chats, p.2.messages = [] := by
  intro q hq
  simp only [ChatCache.insert_chat] at hq
  cases hfind : findChat? c.chats s.chat_id with
  | some entry =>
    simp only [hfind] at hq
    rcases mem_setChat hq with rfl | hq'
    · exact h (s.chat_id, entry) (findChat?_mem hfind)
    · exact h _ hq'
  | none =>
    simp only [hfind] at hq
    rcases List.mem_append.mp hq with hq' | hq'
    · exact h _ hq'
    · simp only [List.mem_singleton] at hq'
      subst hq'
      rfl

lemma cacheLastOk_insert_message {c : ChatCache} {m : CachedMessage}
    (h : cacheLastOk c) : cacheLastOk (c.insert_message m) := by
  intro q hq
  simp only [ChatCache.insert_message] at hq
  cases hfind : findChat? c.chats m.chat_id with
  | some entry =>
    simp only [hfind] at hq
    cases hmod : modifyFirstMsg m.message_id (fun _ => m) entry.messages with
    | some t =>
      obtain ⟨o, n, msgs'⟩ := t
      simp only [hmod] at hq
      rcases mem_setChat hq with rfl | hq'
      · exact lastOk_refreshLast _
      · exact h _ hq'
    | none =>
      simp only [hmod] at hq
      rcases mem_setChat hq with rfl | hq'
      · exact lastOk_refreshLast _
      · exact h _ hq'
  | none =>
    simp only [hfind] at hq
    simp only [modifyFirstMsg] at hq
    rcases mem_setChat hq with rfl | hq'
    · exact lastOk_refreshLast _
    · rcases List.mem_append.mp hq' with hq2 | hq2
      · exact h _ hq2
      · simp only [List.mem_singleton] at hq2
        subst hq2
        intro hne
        exact absurd rfl hne

lemma cacheLastOk_update_message {c : ChatCache} {cid mid : Int} {text : String}
    {ts : Int} (h : cacheLastOk c) : cacheLastOk (c.update_message cid mid text ts) := by
  intro q hq
  simp only [ChatCache.update_message] at hq
  cases hfind : findChat? c.chats cid with
  | none =>
    simp only [hfind] at hq
    exact h _ hq
  | some entry =>
    simp only [hfind] at hq
    cases hmod : modifyFirstMsg mid
        (fun old => { old with text := text, edit_timestamp := some ts }) entry.messages with
    | none =>
      simp only [hmod] at hq
      exact h _ hq
    | some t =>
      obtain ⟨o, n, msgs'⟩ := t
      simp only [hmod] at hq
      rcases mem_setChat hq with rfl | hq'
      · obtain ⟨pre, post, h1, h2, h3⟩ := modifyFirstMsg_eq_some hmod
        have hent := h _ (findChat?_mem hfind)
        intro hne
        show entry.summary.last_message_id = msgs'.getLast?.map _ ∧
          entry.summary.last_message_at = msgs'.getLast?.map _
        have hmsgsne : entry.messages ≠ [] := by
          rw [h1]
          exact List.append_ne_nil_of_right_ne_nil _ (List.cons_ne_nil _ _)
        obtain ⟨hid, hat⟩ := hent hmsgsne
        by_cases hpost : post = []
        · subst hpost
          have hglold : entry.messages.getLast? = some o := by
            rw [h1, getLast?_append_cons]
            rfl
          have hglnew : msgs'.getLast? = some n := by
            rw [h2, getLast?_append_cons]
            rfl
          have hfid : n.message_id = o.message_id := by rw [h3]
          have hfts : n.timestamp = o.timestamp := by rw [h3]
          rw [hglnew, hid, hat, hglold]
          simp [hfid, hfts]
        · have hglold : entry.messages.getLast? = post.getLast? := by
            rw [h1, getLast?_append_cons, getLast?_cons_of_ne _ hpost]
          have hglnew : msgs'.getLast? = post.getLast? := by
            rw [h2, getLast?_append_cons, getLast?_cons_of_ne _ hpost]
          rw [hglnew, hid, hat, hglold]
          exact ⟨rfl, rfl⟩
      · exact h _ hq'

lemma trimEntries_mem {maxMsgs : Nat} :
    ∀ {chats : List (Int × ChatEntry)} {cb cnt : Nat} {q : Int × ChatEntry},
      q ∈ (trimEntries maxMsgs chats cb cnt).1 →
      ∃ p ∈ chats, q.1 = p.1 ∧ q.2.summary = p.2.summary ∧
        q.2.updated_at = p.2.updated_at ∧ q.2.messages <:+ p.2.messages := by
  intro chats
  induction chats with
  | nil => intro cb cnt q hq; simp [trimEntries] at hq
  | cons pe rest ih =>
    intro cb cnt q hq
    obtain ⟨k, e⟩ := pe
    simp only [trimEntries] at hq
    rcases List.mem_cons.mp hq with rfl | hq'
    · exact ⟨(k, e), List.mem_cons_self _ _, rfl, rfl, rfl, popLoop_suffix _ _ _ _ _⟩
    · obtain ⟨p, hp, hrest⟩ := ih hq'
      exact ⟨p, List.mem_cons_of_mem _ hp, hrest⟩

lemma remove_chat_subset {c : ChatCache} {id : Int} {q : Int × ChatEntry}
    (h : q ∈ (c.remove_chat id).1.chats) : q ∈ c.chats := by
  simp only [ChatCache.remove_chat] at h
  cases hfind : findChat? c.chats id with
  | some e =>
    simp only [hfind] at h
    exact mem_removeChatList h
  | none =>
    simp only [hfind] at h
    exact h

lemma evictLoop_subset {guard : ChatCache → Bool} :
    ∀ {fuel : Nat} {c : ChatCache} {st : EvictionStats} {q : Int × ChatEntry},
      q ∈ (evictLoop guard fuel c st).1.chats → q ∈ c.chats := by
  intro fuel
  induction fuel with
  | zero => intro c st q hq; simpa [evictLoop] using hq
  | succ fuel ih =>
    intro c st q hq
    rw [evictLoop] at hq
    cases hg : guard c with
    | false =>
      rw [hg] at hq
      simpa using hq
    | true =>
      rw [hg] at hq
      simp only [if_true] at hq
      cases hlr : leastRecentChat c.chats with
      | none =>
        rw [hlr] at hq
        exact hq
      | some id =>
        rw [hlr] at hq
        exact remove_chat_subset (ih hq)

lemma enforce_mem (c : ChatCache) :
    ∀ q ∈ c.enforce_limits.1.chats,
      ∃ p ∈ c.chats, q.1 = p.1 ∧ q.2.summary = p.2.summary ∧
        q.2.updated_at = p.2.updated_at ∧ q.2.messages <:+ p.2.messages := by
  intro q hq
  simp only [ChatCache.enforce_limits] at hq
  have finish1 : ∀ {chats1 : List (Int × ChatEntry)},
      (∀ q' ∈ chats1, ∃ p ∈ c.chats, q'.1 = p.1 ∧ q'.2.summary = p.2.summary ∧
        q'.2.updated_at = p.2.updated_at ∧ q'.2.messages <:+ p.2.messages) →
      q ∈ chats1 → _ := fun h hmem => h q hmem
  by_cases h1 : 0 < c.limits.max_messages_per_chat <;>
    by_cases h2 : 0 < c.limits.max_chats <;>
      by_cases h3 : 0 < c.limits.max_bytes <;>
        simp only [h1, h2, h3, if_true, if_false] at hq
  all_goals
    first
    | exact trimEntries_mem (evictLoop_subset (evictLoop_subset hq))
    | exact trimEntries_mem (evictLoop_subset hq)
    | exact trimEntries_mem hq
    | exact ⟨q, evictLoop_subset (evictLoop_subset hq), rfl, rfl, rfl, List.suffix_refl _⟩
    | exact ⟨q, evictLoop_subset hq, rfl, rfl, rfl, List.suffix_refl _⟩
    | exact ⟨q, hq, rfl, rfl, rfl, List.suffix_refl _⟩

lemma cacheLastOk_enforce {c : ChatCache} (h : cacheLastOk c) :
    cacheLastOk c.enforce_limits.1 := by
  intro q hq
  obtain ⟨p, hp, _, hsum, _, hsuf⟩ := enforce_mem c q hq
  exact lastOk_of_suffix hsum hsuf (h p hp)

lemma cacheLastOk_apply_event {c : ChatCache} {event : DomainEvent}
    (h : cacheLastOk c) : cacheLastOk (c.apply_event event).1 := by
  cases event with
  | MessageNew m =>
    exact cacheLastOk_enforce (cacheLastOk_insert_message h)
  | MessageEdited m =>
    exact cacheLastOk_enforce (cacheLastOk_update_message h)
  | ReadReceipt r =>
    apply cacheLastOk_enforce
    show cacheLastOk _
    simp only [ChatCache.apply_event]
    cases hfind : findChat? c.chats r.chat_id with
    | none =>
      simp only [hfind]
      exact h
    | some entry =>
      simp only [hfind]
      intro q hq
      rcases mem_setChat hq with rfl | hq'
      · have hent := h _ (findChat?_mem hfind)
        intro hne
        exact hent hne
      · exact h _ hq'
  | Typing t =>
    exact cacheLastOk_enforce h

lemma foldl_preserve {σ α : Type} {P : σ → Prop} {step : σ → α → σ}
    (hstep : ∀ c x, P c → P (step c x)) :
    ∀ (l : List α) (c : σ), P c → P (l.foldl step c) := by
  intro l
  induction l with
  | nil => intro c hc; exact hc
  | cons x xs ih => intro c hc; exact ih _ (hstep c x hc)

lemma from_snapshot_lastOk (s : CacheSnapshot) (lims : CacheLimits) :
    cacheLastOk (ChatCache.from_snapshot s lims) := by
  unfold ChatCache.from_snapshot
  apply cacheLastOk_enforce
  have h1 : ∀ p ∈ (s.chats.foldl (fun c chat => c.insert_chat chat)
      (ChatCache.new lims)).chats, p.2.messages = [] := by
    refine foldl_preserve (P := fun c : ChatCache => ∀ p ∈ c.chats, p.2.messages = [])
      ?_ s.chats _ ?_
    · exact fun c chat hc => insert_chat_all_empty hc
    · intro p hp
      simp [ChatCache.new] at hp
  have h2 : cacheLastOk (s.chats.foldl (fun c chat => c.insert_chat chat)
      (ChatCache.new lims)) := by
    intro p hp hne
    exact absurd (h1 p hp) hne
  exact foldl_preserve (fun c m hc => cacheLastOk_insert_message hc) s.messages _ h2

/-- C2 (corrected). `apply_event` (with its eviction pass) preserves the
invariant that every chat with a non-empty deque has
`last_message_id`/`last_message_at` equal to the id/timestamp of the back
element, and `from_snapshot` establishes it; `upsert_chat`, however, can
break it for the upserted chat (see the counterexample), because
`insert_chat` overwrites the stored summary without reconciling it with
the deque. -/
theorem cache_last_matches_back (c : ChatCache) (event : DomainEvent)
    (s : CacheSnapshot) (lims : CacheLimits) (h : cacheLastOk c) :
    cacheLastOk (c.apply_event event).1 ∧
    cacheLastOk (ChatCache.from_snapshot s lims) :=
  ⟨cacheLastOk_apply_event h, from_snapshot_lastOk s lims⟩

/-- Witness for `cache_last_matches_back`: an edit applied to the one-chat
`demoCache`. -/
theorem cache_last_matches_back_witness :
    cacheLastOk ((demoCache.apply_event
      (.MessageEdited ⟨1, 10, 1, 120, "upd", false⟩)).1) ∧
    cacheLastOk (ChatCache.from_snapshot ⟨[], []⟩ ⟨0, 0, 0⟩) :=
  cache_last_matches_back demoCache (.MessageEdited ⟨1, 10, 1, 120, "upd", false⟩)
    ⟨[], []⟩ ⟨0, 0, 0⟩ (by decide)

/-- Counterexample to C2 as stated: upserting a summary whose
`last_message_id = 999`/`last_message_at = 5` onto a chat whose deque back
is message 10 at timestamp 100 leaves the summary and the deque
disagreeing. -/
theorem cache_last_matches_back_cex :
    ¬ cacheLastOk (demoCache.upsert_chat mismatchSummary).1 := by decide

/-! ### Eviction recency after snapshot reload (claim C10) -/

lemma updOk_refreshLast {e : ChatEntry} (h : updOk e) : updOk (refreshLast e) := by
  unfold refreshLast
  cases hl : e.messages.getLast? with
  | none => exact h
  | some last => rfl

lemma cacheUpdOk_insert_chat {c : ChatCache} {s : ChatSummary}
    (h : cacheUpdOk c) : cacheUpdOk (c.insert_chat s) := by
  intro q hq
  simp only [ChatCache.insert_chat] at hq
  cases hfind : findChat? c.chats s.chat_id with
  | some entry =>
    simp only [hfind] at hq
    rcases mem_setChat hq with rfl | hq'
    · rfl
    · exact h _ hq'
  | none =>
    simp only [hfind] at hq
    rcases List.mem_append.mp hq with hq' | hq'
    · exact h _ hq'
    · simp only [List.mem_singleton] at hq'
      subst hq'
      rfl

lemma cacheUpdOk_insert_message {c : ChatCache} {m : CachedMessage}
    (h : cacheUpdOk c) : cacheUpdOk (c.insert_message m) := by
  intro q hq
  simp only [ChatCache.insert_message] at hq
  cases hfind : findChat? c.chats m.chat_id with
  | some entry =>
    have hent : updOk entry := h (m.chat_id, entry) (findChat?_mem hfind)
    simp only [hfind] at hq
    cases hmod : modifyFirstMsg m.message_id (fun _ => m) entry.messages with
    | some t =>
      obtain ⟨o, n, msgs'⟩ := t
      simp only [hmod] at hq
      rcases mem_setChat hq with rfl | hq'
      · exact updOk_refreshLast hent
      · exact h _ hq'
    | none =>
      simp only [hmod] at hq
      rcases mem_setChat hq with rfl | hq'
      · exact updOk_refreshLast hent
      · exact h _ hq'
  | none =>
    simp only [hfind] at hq
    simp only [modifyFirstMsg] at hq
    rcases mem_setChat hq with rfl | hq'
    · exact updOk_refreshLast rfl
    · rcases List.mem_append.mp hq' with hq2 | hq2
      · exact h _ hq2
      · simp only [List.mem_singleton] at hq2
        subst hq2
        rfl

lemma cacheUpdOk_enforce {c : ChatCache} (h : cacheUpdOk c) :
    cacheUpdOk c.enforce_limits.1 := by
  intro q hq
  obtain ⟨p, hp, _, hsum, hupd, _⟩ := enforce_mem c q hq
  unfold updOk
  rw [hupd, hsum]
  exact h p hp

lemma from_snapshot_updOk (s : CacheSnapshot) (lims : CacheLimits) :
    cacheUpdOk (ChatCache.from_snapshot s lims) := by
  unfold ChatCache.from_snapshot
  apply cacheUpdOk_enforce
  refine foldl_preserve (fun c m hc => cacheUpdOk_insert_message hc) s.messages _ ?_
  refine foldl_preserve (fun c chat hc => cacheUpdOk_insert_chat hc) s.chats _ ?_
  intro p hp
  simp [ChatCache.new] at hp

/-- C10 (confirmed). `save` writes each chat's `updated_at` column as
`last_message_at` (or 0); `load` reads and discards the stored
`updated_at`; and every entry of a cache rebuilt with `from_snapshot` has
`updated_at = last_message_at.getD 0`, so eviction recency after a reload
is based on `last_message_at` (or 0), not on the pre-save in-memory
`updated_at`. -/
theorem snapshot_updated_at (chat : ChatSummary) (r : ChatRow) (x : Int)
    (s : CacheSnapshot) (lims : CacheLimits) :
    (chatRowOf chat).updated_at = chat.last_message_at.getD 0 ∧
    summaryOfRow { r with updated_at := x } = summaryOfRow r ∧
    cacheUpdOk (ChatCache.from_snapshot s lims) :=
  ⟨rfl, rfl, from_snapshot_updOk s lims⟩

/-! ### Lock poisoning (claim C8) -/

/-- C8 (corrected). If a writer panicked while holding the cache lock,
the writers `apply_event` and `upsert_chat` recover the inner state
(`into_inner`) and behave exactly as on a healthy lock; but the readers
`chat_summaries` and `messages_for_chat` do not recover: they return the
empty default whenever the lock is poisoned. -/
theorem lock_poison_recovery (poisoned : Bool) (cache : ChatCache)
    (event : DomainEvent) (summary : ChatSummary) (chat_id : Int)
    (limit : Option Nat) :
    managerApplyEvent poisoned cache event = cache.apply_event event ∧
    managerUpsertChat poisoned cache summary = cache.upsert_chat summary ∧
    managerChatSummaries true cache = [] ∧
    managerMessagesForChat true cache chat_id limit = [] ∧
    managerChatSummaries false cache = cache.chat_summaries ∧
    managerMessagesForChat false cache chat_id limit =
      cache.messages_for_chat chat_id limit := by
  refine ⟨?_, ?_, rfl, rfl, rfl, rfl⟩ <;> cases poisoned <;> rfl

/-- Counterexample to C8 as stated: on a poisoned lock the reader
`chat_summaries` observes an empty cache even though the inner state holds
a chat. -/
theorem lock_poison_recovery_cex :
    ¬ (managerChatSummaries true demoCache = demoCache.chat_summaries) := by
  decide

/-! ### The `outgoing` field of message events (claim C3) -/

/-- C3 (code_bug). The spec requires `MessageNew`/`MessageEdited` to carry
an `outgoing` flag, and `ChatCache::apply_event` together with the crate's
own tests read and construct that field, but the struct declarations in
events.rs omit it: the declarations contradict their own uses. -/
theorem message_events_outgoing_field :
    ("outgoing" ∉ messageNewDeclaredFields ∧
     "outgoing" ∉ messageEditedDeclaredFields) ∧
    "outgoing" ∈ messageNewFieldsReadByCache ∧
    "outgoing" ∈ messageNewTestLiteralFields := by decide

/-! ### Byte accounting (claim C4) -/

lemma msum_cons (m : CachedMessage) (l : List CachedMessage) :
    msum (m :: l) = messageSizeBytes m + msum l := by
  simp [msum]

lemma msum_append (l₁ l₂ : List CachedMessage) :
    msum (l₁ ++ l₂) = msum l₁ + msum l₂ := by
  simp [msum]

lemma msum_mem_le {msgs : List CachedMessage} {m : CachedMessage} (hm : m ∈ msgs) :
    messageSizeBytes m ≤ msum msgs := by
  induction msgs with
  | nil => simp at hm
  | cons x xs ih =>
    rw [msum_cons]
    rcases List.mem_cons.mp hm with rfl | hm'
    · omega
    · have := ih hm'
      omega

lemma totalBytes_cons (p : Int × ChatEntry) (rest : List (Int × ChatEntry)) :
    totalBytes (p :: rest) =
      p.2.message_bytes + p.2.summary_bytes + totalBytes rest := by
  simp [totalBytes]

lemma totalBytes_append (l₁ l₂ : List (Int × ChatEntry)) :
    totalBytes (l₁ ++ l₂) = totalBytes l₁ + totalBytes l₂ := by
  simp [totalBytes]

lemma mem_le_totalBytes {chats : List (Int × ChatEntry)} {p : Int × ChatEntry}
    (hp : p ∈ chats) : p.2.message_bytes + p.2.summary_bytes ≤ totalBytes chats := by
  induction chats with
  | nil => simp at hp
  | cons q rest ih =>
    rw [totalBytes_cons]
    rcases List.mem_cons.mp hp with rfl | hp'
    · omega
    · have h := ih hp'
      omega

lemma totalBytes_setChat {chats : List (Int × ChatEntry)} {id : Int} {entry : ChatEntry}
    (hfind : findChat? chats id = some entry) (e' : ChatEntry) :
    totalBytes (setChat chats id e') + (entry.message_bytes + entry.summary_bytes) =
      totalBytes chats + (e'.message_bytes + e'.summary_bytes) := by
  induction chats with
  | nil => simp [findChat?] at hfind
  | cons p rest ih =>
    obtain ⟨k, v⟩ := p
    by_cases hk : k = id
    · subst hk
      rw [findChat?, if_pos rfl] at hfind
      have hv : v = entry := by injection hfind
      rw [setChat, if_pos rfl, totalBytes_cons, totalBytes_cons]
      dsimp only
      have hv1 : v.message_bytes = entry.message_bytes := by rw [hv]
      have hv2 : v.summary_bytes = entry.summary_bytes := by rw [hv]
      omega
    · rw [findChat?, if_neg hk] at hfind
      rw [setChat, if_neg hk, totalBytes_cons, totalBytes_cons]
      have h := ih hfind
      dsimp only
      omega

lemma totalBytes_removeChatList {chats : List (Int × ChatEntry)} {id : Int}
    {entry : ChatEntry} (hfind : findChat? chats id = some entry) :
    totalBytes (removeChatList chats id) +
      (entry.message_bytes + entry.summary_bytes) = totalBytes chats := by
  induction chats with
  | nil => simp [findChat?] at hfind
  | cons p rest ih =>
    obtain ⟨k, v⟩ := p
    by_cases hk : k = id
    · subst hk
      rw [findChat?, if_pos rfl] at hfind
      have hv : v = entry := by injection hfind
      rw [removeChatList, if_pos rfl, totalBytes_cons]
      dsimp only
      have hv1 : v.message_bytes = entry.message_bytes := by rw [hv]
      have hv2 : v.summary_bytes = entry.summary_bytes := by rw [hv]
      omega
    · rw [findChat?, if_neg hk] at hfind
      rw [removeChatList, if_neg hk, totalBytes_cons, totalBytes_cons]
      have h := ih hfind
      dsimp only
      omega

lemma findChat?_append_of_none {chats : List (Int × ChatEntry)} {id : Int}
    (h : findChat? chats id = none) (e : ChatEntry) :
    findChat? (chats ++ [(id, e)]) id = some e := by
  induction chats with
  | nil => simp [findChat?]
  | cons p rest ih =>
    obtain ⟨k, v⟩ := p
    by_cases hk : k = id
    · subst hk
      rw [findChat?, if_pos rfl] at h
      cases h
    · rw [findChat?, if_neg hk] at h
      rw [List.cons_append, findChat?, if_neg hk]
      exact ih h

lemma refreshLast_messages (e : ChatEntry) : (refreshLast e).messages = e.messages := by
  unfold refreshLast
  cases e.messages.getLast? <;> rfl

lemma refreshLast_message_bytes (e : ChatEntry) :
    (refreshLast e).message_bytes = e.message_bytes := by
  unfold refreshLast
  cases e.messages.getLast? <;> rfl

lemma refreshLast_summary_bytes (e : ChatEntry) :
    (refreshLast e).summary_bytes = e.summary_bytes := by
  unfold refreshLast
  cases e.messages.getLast? <;> rfl

lemma refreshLast_summary_title (e : ChatEntry) :
    (refreshLast e).summary.title = e.summary.title := by
  unfold refreshLast
  cases e.messages.getLast? <;> rfl

lemma entryBytesOk_refreshLast {e : ChatEntry} (h : entryBytesOk e) :
    entryBytesOk (refreshLast e) := by
  obtain ⟨h1, h2⟩ := h
  refine ⟨?_, ?_⟩
  · rw [refreshLast_message_bytes, refreshLast_messages]
    exact h1
  · rw [refreshLast_summary_bytes, h2]
    unfold summarySizeBytes
    rw [refreshLast_summary_title]

lemma popLoop_bytes (maxMsgs : Nat) :
    ∀ (msgs : List CachedMessage) (mb cb cnt : Nat), mb = msum msgs → mb ≤ cb →
      (popLoop maxMsgs msgs mb cb cnt).2.1 = msum (popLoop maxMsgs msgs mb cb cnt).1 ∧
      (popLoop maxMsgs msgs mb cb cnt).2.1 ≤ mb ∧
      (popLoop maxMsgs msgs mb cb cnt).2.2.1 =
        cb - mb + (popLoop maxMsgs msgs mb cb cnt).2.1 := by
  intro msgs
  induction msgs with
  | nil =>
    intro mb cb cnt hmb hle
    simp only [popLoop]
    have h0 : msum ([] : List CachedMessage) = 0 := rfl
    refine ⟨hmb, le_refl _, by omega⟩
  | cons m rest ih =>
    intro mb cb cnt hmb hle
    simp only [popLoop]
    by_cases hg : maxMsgs < (m :: rest).length
    · simp only [if_pos hg]
      have hszm : messageSizeBytes m ≤ mb := by
        rw [hmb, msum_cons]
        omega
      have h1 : mb - messageSizeBytes m = msum rest := by
        rw [hmb, msum_cons]
        omega
      obtain ⟨ha, hb, hc⟩ := ih (mb - messageSizeBytes m) (cb - messageSizeBytes m)
        (cnt + 1) h1 (by omega)
      exact ⟨ha, by omega, by omega⟩
    · simp only [if_neg hg]
      exact ⟨hmb, le_refl _, by omega⟩

lemma trimEntries_bytes (maxMsgs : Nat) :
    ∀ (chats : List (Int × ChatEntry)) (cb cnt r0 : Nat),
      (∀ p ∈ chats, entryBytesOk p.2) → cb = totalBytes chats + r0 →
      (∀ p ∈ (trimEntries maxMsgs chats cb cnt).1, entryBytesOk p.2) ∧
      (trimEntries maxMsgs chats cb cnt).2.1 =
        totalBytes (trimEntries maxMsgs chats cb cnt).1 + r0 := by
  intro chats
  induction chats with
  | nil =>
    intro cb cnt r0 hok hcb
    refine ⟨?_, ?_⟩
    · intro p hp
      simp [trimEntries] at hp
    · simpa [trimEntries, totalBytes] using hcb
  | cons pe rest ih =>
    intro cb cnt r0 hok hcb
    obtain ⟨k, e⟩ := pe
    obtain ⟨hmb, hsb⟩ := hok (k, e) (List.mem_cons_self _ _)
    have hcb2 : cb = e.message_bytes + e.summary_bytes + totalBytes rest + r0 := by
      rw [hcb, totalBytes_cons]
    have hmb_le : e.message_bytes ≤ cb := by omega
    obtain ⟨ha, hb, hc⟩ := popLoop_bytes maxMsgs e.messages e.message_bytes cb cnt hmb hmb_le
    have hcb' : (popLoop maxMsgs e.messages e.message_bytes cb cnt).2.2.1 =
        totalBytes rest +
          (r0 + (popLoop maxMsgs e.messages e.message_bytes cb cnt).2.1 +
            e.summary_bytes) := by
      rw [hc]
      omega
    obtain ⟨ih1, ih2⟩ := ih (popLoop maxMsgs e.messages e.message_bytes cb cnt).2.2.1
      (popLoop maxMsgs e.messages e.message_bytes cb cnt).2.2.2
      (r0 + (popLoop maxMsgs e.messages e.message_bytes cb cnt).2.1 + e.summary_bytes)
      (fun p hp => hok p (List.mem_cons_of_mem _ hp)) hcb'
    simp only [trimEntries]
    refine ⟨?_, ?_⟩
    · intro p hp
      rcases List.mem_cons.mp hp with rfl | hp'
      · exact ⟨ha, hsb⟩
      · exact ih1 p hp'
    · rw [ih2, totalBytes_cons]
      dsimp only
      omega

lemma cacheBytesOk_remove_chat {c : ChatCache} {id : Int} (h : cacheBytesOk c) :
    cacheBytesOk (c.remove_chat id).1 := by
  obtain ⟨hok, hcb⟩ := h
  cases hfind : findChat? c.chats id with
  | none =>
    simp only [ChatCache.remove_chat, hfind]
    exact ⟨hok, hcb⟩
  | some entry =>
    simp only [ChatCache.remove_chat, hfind]
    have hmem := findChat?_mem hfind
    have hle := mem_le_totalBytes hmem
    have hrem := totalBytes_removeChatList hfind
    refine ⟨?_, ?_⟩
    · intro p hp
      exact hok p (mem_removeChatList hp)
    · dsimp only
      dsimp only at hle
      omega

lemma cacheBytesOk_evictLoop {guard : ChatCache → Bool} :
    ∀ {fuel : Nat} {c : ChatCache} {st : EvictionStats}, cacheBytesOk c →
      cacheBytesOk (evictLoop guard fuel c st).1 := by
  intro fuel
  induction fuel with
  | zero => intro c st h; simpa [evictLoop] using h
  | succ fuel ih =>
    intro c st h
    rw [evictLoop]
    cases hg : guard c with
    | false => simpa using h
    | true =>
      simp only [if_true]
      cases hlr : leastRecentChat c.chats with
      | none => exact h
      | some id => exact ih (cacheBytesOk_remove_chat h)

lemma cacheBytesOk_enforce {c : ChatCache} (h : cacheBytesOk c) :
    cacheBytesOk c.enforce_limits.1 := by
  obtain ⟨hok, hcb⟩ := h
  simp only [ChatCache.enforce_limits]
  have htrim : cacheBytesOk { c with
      chats := (trimEntries c.limits.max_messages_per_chat c.chats c.current_bytes 0).1
      current_bytes :=
        (trimEntries c.limits.max_messages_per_chat c.chats c.current_bytes 0).2.1 } := by
    obtain ⟨h1, h2⟩ := trimEntries_bytes c.limits.max_messages_per_chat c.chats
      c.current_bytes 0 0 hok (by omega)
    exact ⟨h1, by simpa using h2⟩
  by_cases h1 : 0 < c.limits.max_messages_per_chat <;>
    by_cases h2 : 0 < c.limits.max_chats <;>
      by_cases h3 : 0 < c.limits.max_bytes <;>
        simp only [h1, h2, h3, if_true, if_false]
  all_goals
    first
    | exact cacheBytesOk_evictLoop (cacheBytesOk_evictLoop htrim)
    | exact cacheBytesOk_evictLoop htrim
    | exact htrim
    | exact cacheBytesOk_evictLoop (cacheBytesOk_evictLoop ⟨hok, hcb⟩)
    | exact cacheBytesOk_evictLoop ⟨hok, hcb⟩
    | exact ⟨hok, hcb⟩

lemma cacheBytesOk_insert_chat {c : ChatCache} {s : ChatSummary}
    (h : cacheBytesOk c) : cacheBytesOk (c.insert_chat s) := by
  obtain ⟨hok, hcb⟩ := h
  cases hfind : findChat? c.chats s.chat_id with
  | some entry =>
    simp only [ChatCache.insert_chat, hfind]
    have hmem := findChat?_mem hfind
    have hle := mem_le_totalBytes hmem
    have hset := totalBytes_setChat hfind
      { entry with summary := s, summary_bytes := summarySizeBytes s,
                   updated_at := s.last_message_at.getD 0 }
    refine ⟨?_, ?_⟩
    · intro q hq
      rcases mem_setChat hq with rfl | hq'
      · obtain ⟨he1, _⟩ := hok (s.chat_id, entry) hmem
        exact ⟨he1, rfl⟩
      · exact hok q hq'
    · dsimp only
      dsimp only at hset hle
      omega
  | none =>
    simp only [ChatCache.insert_chat, hfind]
    refine ⟨?_, ?_⟩
    · intro q hq
      rcases List.mem_append.mp hq with hq' | hq'
      · exact hok q hq'
      · simp only [List.mem_singleton] at hq'
        subst hq'
        exact ⟨rfl, rfl⟩
    · dsimp only
      rw [totalBytes_append, totalBytes_cons]
      dsimp only
      have h0 : totalBytes ([] : List (Int × ChatEntry)) = 0 := rfl
      omega

lemma cacheBytesOk_insert_message {c : ChatCache} {m : CachedMessage}
    (h : cacheBytesOk c) : cacheBytesOk (c.insert_message m) := by
  obtain ⟨hok, hcb⟩ := h
  cases hfind : findChat? c.chats m.chat_id with
  | some entry =>
    have hmem := findChat?_mem hfind
    have hle := mem_le_totalBytes hmem
    obtain ⟨hemb, hesb⟩ := hok (m.chat_id, entry) hmem
    dsimp only at hemb hesb
    cases hmod : modifyFirstMsg m.message_id (fun _ => m) entry.messages with
    | some t =>
      obtain ⟨o, n, msgs'⟩ := t
      simp only [ChatCache.insert_message, hfind, hmod]
      obtain ⟨pre, post, hd1, hd2, hd3⟩ := modifyFirstMsg_eq_some hmod
      have homem : o ∈ entry.messages := by
        rw [hd1]
        exact List.mem_append_right _ (List.mem_cons_self _ _)
      have hole : messageSizeBytes o ≤ entry.message_bytes := by
        rw [hemb]
        exact msum_mem_le homem
      have hmsum' : msum msgs' + messageSizeBytes o =
          msum entry.messages + messageSizeBytes m := by
        rw [hd1, hd2, msum_append, msum_append, msum_cons, msum_cons, hd3]
        omega
      have he1ok : entryBytesOk
          { entry with
              messages := msgs'
              message_bytes := entry.message_bytes - messageSizeBytes o +
                messageSizeBytes m } := by
        refine ⟨?_, hesb⟩
        show entry.message_bytes - messageSizeBytes o + messageSizeBytes m = msum msgs'
        omega
      have hset := totalBytes_setChat hfind (refreshLast
        { entry with
            messages := msgs'
            message_bytes := entry.message_bytes - messageSizeBytes o +
              messageSizeBytes m })
      have hrb := refreshLast_message_bytes
        { entry with
            messages := msgs'
            message_bytes := entry.message_bytes - messageSizeBytes o +
              messageSizeBytes m }
      have hrs := refreshLast_summary_bytes
        { entry with
            messages := msgs'
            message_bytes := entry.message_bytes - messageSizeBytes o +
              messageSizeBytes m }
      refine ⟨?_, ?_⟩
      · intro q hq
        rcases mem_setChat hq with rfl | hq'
        · exact entryBytesOk_refreshLast he1ok
        · exact hok q hq'
      · dsimp only
        dsimp only at hset hle hrb hrs
        omega
    | none =>
      simp only [ChatCache.insert_message, hfind, hmod]
      have he1ok : entryBytesOk
          { entry with
              messages := entry.messages ++ [m]
              message_bytes := entry.message_bytes + messageSizeBytes m } := by
        refine ⟨?_, hesb⟩
        show entry.message_bytes + messageSizeBytes m = msum (entry.messages ++ [m])
        rw [msum_append, msum_cons, hemb]
        have h0 : msum ([] : List CachedMessage) = 0 := rfl
        omega
      have hset := totalBytes_setChat hfind (refreshLast
        { entry with
            messages := entry.messages ++ [m]
            message_bytes := entry.message_bytes + messageSizeBytes m })
      have hrb := refreshLast_message_bytes
        { entry with
            messages := entry.messages ++ [m]
            message_bytes := entry.message_bytes + messageSizeBytes m }
      have hrs := refreshLast_summary_bytes
        { entry with
            messages := entry.messages ++ [m]
            message_bytes := entry.message_bytes + messageSizeBytes m }
      refine ⟨?_, ?_⟩
      · intro q hq
        rcases mem_setChat hq with rfl | hq'
        · exact entryBytesOk_refreshLast he1ok
        · exact hok q hq'
      · dsimp only
        dsimp only at hset hle hrb hrs
        omega
  | none =>
    simp only [ChatCache.insert_message, hfind, modifyFirstMsg]
    have hfind2 : findChat? (c.chats ++
        [(m.chat_id,
          { summary := stubSummary m.chat_id, messages := [], updated_at := 0,
            message_bytes := 0,
            summary_bytes := summarySizeBytes (stubSummary m.chat_id) })])
        m.chat_id = some
          { summary := stubSummary m.chat_id, messages := [], updated_at := 0,
            message_bytes := 0,
            summary_bytes := summarySizeBytes (stubSummary m.chat_id) } :=
      findChat?_append_of_none hfind _
    have he1ok : entryBytesOk
        { summary := stubSummary m.chat_id, messages := [] ++ [m], updated_at := 0,
          message_bytes := 0 + messageSizeBytes m,
          summary_bytes := summarySizeBytes (stubSummary m.chat_id) } := by
      refine ⟨?_, rfl⟩
      show 0 + messageSizeBytes m = msum ([] ++ [m])
      simp [msum]
    have hset := totalBytes_setChat hfind2 (refreshLast
      { summary := stubSummary m.chat_id, messages := [] ++ [m], updated_at := 0,
        message_bytes := 0 + messageSizeBytes m,
        summary_bytes := summarySizeBytes (stubSummary m.chat_id) })
    have hrb := refreshLast_message_bytes
      { summary := stubSummary m.chat_id, messages := [] ++ [m], updated_at := 0,
        message_bytes := 0 + messageSizeBytes m,
        summary_bytes := summarySizeBytes (stubSummary m.chat_id) }
    have hrs := refreshLast_summary_bytes
      { summary := stubSummary m.chat_id, messages := [] ++ [m], updated_at := 0,
        message_bytes := 0 + messageSizeBytes m,
        summary_bytes := summarySizeBytes (stubSummary m.chat_id) }
    have happ : totalBytes (c.chats ++
        [(m.chat_id,
          { summary := stubSummary m.chat_id, messages := [], updated_at := 0,
            message_bytes := 0,
            summary_bytes := summarySizeBytes (stubSummary m.chat_id) })]) =
        totalBytes c.chats + (0 + summarySizeBytes (stubSummary m.chat_id)) := by
      rw [totalBytes_append, totalBytes_cons]
      dsimp only
      have h0 : totalBytes ([] : List (Int × ChatEntry)) = 0 := rfl
      omega
    refine ⟨?_, ?_⟩
    · intro q hq
      rcases mem_setChat hq with rfl | hq'
      · exact entryBytesOk_refreshLast he1ok
      · rcases List.mem_append.mp hq' with hq2 | hq2
        · exact hok q hq2
        · simp only [List.mem_singleton] at hq2
          subst hq2
          exact ⟨rfl, rfl⟩
    · dsimp only
      dsimp only at hset hrb hrs
      omega

lemma cacheBytesOk_update_message {c : ChatCache} {cid mid : Int} {text : String}
    {ts : Int} (h : cacheBytesOk c) : cacheBytesOk (c.update_message cid mid text ts) := by
  obtain ⟨hok, hcb⟩ := h
  cases hfind : findChat? c.chats cid with
  | none =>
    simp only [ChatCache.update_message, hfind]
    exact ⟨hok, hcb⟩
  | some entry =>
    have hmem := findChat?_mem hfind
    have hle := mem_le_totalBytes hmem
    obtain ⟨hemb, hesb⟩ := hok (cid, entry) hmem
    dsimp only at hemb hesb
    cases hmod : modifyFirstMsg mid
        (fun old => { old with text := text, edit_timestamp := some ts })
        entry.messages with
    | none =>
      simp only [ChatCache.update_message, hfind, hmod]
      exact ⟨hok, hcb⟩
    | some t =>
      obtain ⟨o, n, msgs'⟩ := t
      simp only [ChatCache.update_message, hfind, hmod]
      obtain ⟨pre, post, hd1, hd2, hd3⟩ := modifyFirstMsg_eq_some hmod
      have homem : o ∈ entry.messages := by
        rw [hd1]
        exact List.mem_append_right _ (List.mem_cons_self _ _)
      have hole : messageSizeBytes o ≤ entry.message_bytes := by
        rw [hemb]
        exact msum_mem_le homem
      have hmsum' : msum msgs' + messageSizeBytes o =
          msum entry.messages + messageSizeBytes n := by
        rw [hd1, hd2, msum_append, msum_append, msum_cons, msum_cons]
        omega
      have he'ok : entryBytesOk
          { entry with
              messages := msgs'
              message_bytes := entry.message_bytes - messageSizeBytes o +
                messageSizeBytes n
              updated_at := ts } := by
        refine ⟨?_, hesb⟩
        show entry.message_bytes - messageSizeBytes o + messageSizeBytes n = msum msgs'
        omega
      have hset := totalBytes_setChat hfind
        { entry with
            messages := msgs'
            message_bytes := entry.message_bytes - messageSizeBytes o +
              messageSizeBytes n
            updated_at := ts }
      refine ⟨?_, ?_⟩
      · intro q hq
        rcases mem_setChat hq with rfl | hq'
        · exact he'ok
        · exact hok q hq'
      · dsimp only
        dsimp only at hset hle
        omega

lemma cacheBytesOk_apply_event {c : ChatCache} {event : DomainEvent}
    (h : cacheBytesOk c) : cacheBytesOk (c.apply_event event).1 := by
  cases event with
  | MessageNew m => exact cacheBytesOk_enforce (cacheBytesOk_insert_message h)
  | MessageEdited m => exact cacheBytesOk_enforce (cacheBytesOk_update_message h)
  | ReadReceipt r =>
    apply cacheBytesOk_enforce
    show cacheBytesOk _
    obtain ⟨hok, hcb⟩ := h
    cases hfind : findChat? c.chats r.chat_id with
    | none =>
      simp only [ChatCache.apply_event, hfind]
      exact ⟨hok, hcb⟩
    | some entry =>
      simp only [ChatCache.apply_event, hfind]
      have hmem := findChat?_mem hfind
      obtain ⟨hemb, hesb⟩ := hok (r.chat_id, entry) hmem
      have hset := totalBytes_setChat hfind
        { entry with
            summary := { entry.summary with unread_count := some 0 }
            updated_at := r.timestamp }
      refine ⟨?_, ?_⟩
      · intro q hq
        rcases mem_setChat hq with rfl | hq'
        · exact ⟨hemb, hesb⟩
        · exact hok q hq'
      · dsimp only
        dsimp only at hset
        omega
  | Typing t => exact cacheBytesOk_enforce h

lemma underflowFree_of_bytesOk {c : ChatCache} (h : cacheBytesOk c) :
    underflowFree c := by
  obtain ⟨hok, hcb⟩ := h
  intro p hp
  obtain ⟨hmb, _⟩ := hok p hp
  refine ⟨?_, ?_⟩
  · rw [hcb]
    exact mem_le_totalBytes hp
  · intro m hm
    rw [hmb]
    exact msum_mem_le hm

/-- C4 (confirmed). `apply_event` of any domain event, including the
eviction pass it triggers, preserves the exact equality
`current_bytes = Σ (message_bytes + summary_bytes)` with `message_bytes`
counting `text.length + 64` per message and `summary_bytes`
`title.length + 64`; and in every state satisfying the invariant each
`saturating_sub` the cache performs subtracts no more than its minuend, so
the counter never underflows. -/
theorem cache_bytes_accounting (c : ChatCache) (event : DomainEvent)
    (h : cacheBytesOk c) :
    cacheBytesOk (c.apply_event event).1 ∧ underflowFree c ∧
    underflowFree (c.apply_event event).1 :=
  ⟨cacheBytesOk_apply_event h, underflowFree_of_bytesOk h,
    underflowFree_of_bytesOk (cacheBytesOk_apply_event h)⟩

/-- Witness for `cache_bytes_accounting`: a second message applied to the
one-chat `demoCache`. -/
theorem cache_bytes_accounting_witness :
    cacheBytesOk ((demoCache.apply_event
      (.MessageNew ⟨1, 11, 2, 200, "yo", true⟩)).1) ∧
    underflowFree demoCache ∧
    underflowFree ((demoCache.apply_event
      (.MessageNew ⟨1, 11, 2, 200, "yo", true⟩)).1) :=
  cache_bytes_accounting demoCache (.MessageNew ⟨1, 11, 2, 200, "yo", true⟩)
    (by decide)

/-! ### Stable insertion sort lemmas -/

lemma insertLe_perm {α : Type} (le : α → α → Bool) (x : α) :
    ∀ l : List α, (insertLe le x l).Perm (x :: l) := by
  intro l
  induction l with
  | nil => exact List.Perm.refl _
  | cons y ys ih =>
    rw [insertLe]
    by_cases h : le x y
    · rw [if_pos h]
    · rw [if_neg h]
      exact (List.Perm.cons y ih).trans (List.Perm.swap x y ys)

lemma insertionSort_perm {α : Type} (le : α → α → Bool) :
    ∀ l : List α, (insertionSort le l).Perm l := by
  intro l
  induction l with
  | nil => exact List.Perm.refl _
  | cons x xs ih =>
    rw [insertionSort]
    exact (insertLe_perm le x (insertionSort le xs)).trans (List.Perm.cons x ih)

lemma mem_insertLe {α : Type} {le : α → α → Bool} {x z : α} {l : List α}
    (h : z ∈ insertLe le x l) : z = x ∨ z ∈ l := by
  have := (insertLe_perm le x l).mem_iff.mp h
  simpa using this

lemma sorted_insertLe {α : Type} {le : α → α → Bool}
    (htrans : ∀ a b c, le a b = true → le b c = true → le a c = true)
    (htot : ∀ a b, le a b = true ∨ le b a = true) (x : α) :
    ∀ l : List α, l.Pairwise (fun a b => le a b = true) →
      (insertLe le x l).Pairwise (fun a b => le a b = true) := by
  intro l
  induction l with
  | nil =>
    intro _
    simp [insertLe]
  | cons y ys ih =>
    intro hl
    obtain ⟨hy, hys⟩ := List.pairwise_cons.mp hl
    rw [insertLe]
    by_cases h : le x y
    · rw [if_pos h]
      refine List.pairwise_cons.mpr ⟨?_, hl⟩
      intro z hz
      rcases List.mem_cons.mp hz with rfl | hz'
      · exact h
      · exact htrans x y z h (hy z hz')
    · rw [if_neg h]
      have hyx : le y x = true := by
        rcases htot x y with h' | h'
        · exact absurd h' h
        · exact h'
      refine List.pairwise_cons.mpr ⟨?_, ih hys⟩
      intro z hz
      rcases mem_insertLe hz with rfl | hz'
      · exact hyx
      · exact hy z hz'

lemma sorted_insertionSort {α : Type} {le : α → α → Bool}
    (htrans : ∀ a b c, le a b = true → le b c = true → le a c = true)
    (htot : ∀ a b, le a b = true ∨ le b a = true) :
    ∀ l : List α, (insertionSort le l).Pairwise (fun a b => le a b = true) := by
  intro l
  induction l with
  | nil => simp [insertionSort]
  | cons x xs ih =>
    rw [insertionSort]
    exact sorted_insertLe htrans htot x _ ih

/-! ### Snapshot round trip (claim C5) -/

lemma peerKind_roundtrip (k : ChatPeerKind) :
    ChatPeerKind.fromStr k.asStr = k := by
  cases k <;> rfl

lemma u32cast_ofNat {u : Nat} (h : u < 2 ^ 32) : u32cast (u : Int) = u := by
  unfold u32cast
  omega

lemma summary_roundtrip {chat : ChatSummary}
    (hu : ∀ u, chat.unread_count = some u → u < 2 ^ 32) :
    summaryOfRow (chatRowOf chat) = chat := by
  obtain ⟨cid, title, pk, lmid, lmat, unread⟩ := chat
  cases unread with
  | none => simp [summaryOfRow, chatRowOf, peerKind_roundtrip]
  | some u =>
    have hu32 : u < 2 ^ 32 := hu u rfl
    simp [summaryOfRow, chatRowOf, peerKind_roundtrip, u32cast_ofNat hu32]

lemma message_roundtrip (m : CachedMessage) :
    messageOfRow (messageRowOf m) = m := by
  obtain ⟨cid, mid, aid, ts, ets, text, og⟩ := m
  cases og <;> rfl

lemma msgRowLE_trans (a b c : MessageRow) (hab : msgRowLE a b = true)
    (hbc : msgRowLE b c = true) : msgRowLE a c = true := by
  simp only [msgRowLE, decide_eq_true_eq] at *
  omega

lemma msgRowLE_total (a b : MessageRow) :
    msgRowLE a b = true ∨ msgRowLE b a = true := by
  simp only [msgRowLE, decide_eq_true_eq]
  omega

/-- C5 (confirmed). For every valid snapshot, saving through the SQLite
store and loading back yields the same multiset of chat summaries and of
messages, and in the loaded result each chat's messages are ordered by
timestamp. -/
theorem snapshot_round_trip (s : CacheSnapshot) (hval : validSnapshot s) :
    (sqliteLoad (sqliteSaveChats s) (sqliteSaveMessages s)).chats.Perm s.chats ∧
    (sqliteLoad (sqliteSaveChats s) (sqliteSaveMessages s)).messages.Perm s.messages ∧
    ∀ cid : Int,
      ((sqliteLoad (sqliteSaveChats s) (sqliteSaveMessages s)).messages.filter
        (fun m => decide (m.chat_id = cid))).Sorted
        (fun a b => a.timestamp ≤ b.timestamp) := by
  obtain ⟨-, -, hunread⟩ := hval
  have hchats : (sqliteLoad (sqliteSaveChats s) (sqliteSaveMessages s)).chats = s.chats := by
    show (s.chats.map chatRowOf).map summaryOfRow = s.chats
    rw [List.map_map]
    have : ∀ l : List ChatSummary,
        (∀ chat ∈ l, ∀ u, chat.unread_count = some u → u < 2 ^ 32) →
        l.map (summaryOfRow ∘ chatRowOf) = l := by
      intro l
      induction l with
      | nil => intro _; rfl
      | cons chat cs ih =>
        intro hl
        rw [List.map_cons]
        rw [ih (fun chat' hm => hl chat' (List.mem_cons_of_mem _ hm))]
        rw [Function.comp_apply, summary_roundtrip (hl chat (List.mem_cons_self _ _))]
    exact this s.chats hunread
  have hmsgsmap : ∀ l : List CachedMessage,
      (l.map messageRowOf).map messageOfRow = l := by
    intro l
    induction l with
    | nil => rfl
    | cons m ms ih =>
      simp only [List.map_cons, message_roundtrip, ih]
  have hperm : (sqliteLoad (sqliteSaveChats s) (sqliteSaveMessages s)).messages.Perm
      s.messages := by
    show ((insertionSort msgRowLE (s.messages.map messageRowOf)).map messageOfRow).Perm
      s.messages
    have h1 := (insertionSort_perm msgRowLE (s.messages.map messageRowOf)).map messageOfRow
    rw [hmsgsmap] at h1
    exact h1
  refine ⟨hchats ▸ List.Perm.refl _, hperm, ?_⟩
  intro cid
  have hsorted := sorted_insertionSort msgRowLE_trans msgRowLE_total
    (s.messages.map messageRowOf)
  have hkey : (sqliteLoad (sqliteSaveChats s) (sqliteSaveMessages s)).messages.Pairwise
      (fun a b => a.chat_id < b.chat_id ∨
        (a.chat_id = b.chat_id ∧ a.timestamp ≤ b.timestamp)) := by
    show ((insertionSort msgRowLE (s.messages.map messageRowOf)).map messageOfRow).Pairwise _
    rw [List.pairwise_map]
    refine hsorted.imp ?_
    intro a b hab
    simp only [msgRowLE, decide_eq_true_eq] at hab
    exact hab
  have hfil := hkey.filter (fun m => decide (m.chat_id = cid))
  refine hfil.imp_of_mem ?_
  intro a b ha hb hab
  have ha' := (List.mem_filter.mp ha).2
  have hb' := (List.mem_filter.mp hb).2
  simp only [decide_eq_true_eq] at ha' hb'
  rcases hab with h | h
  · omega
  · exact h.2

/-- Witness for `snapshot_round_trip` at the two-chat `demoSnapshot`. -/
theorem snapshot_round_trip_witness :
    (sqliteLoad (sqliteSaveChats demoSnapshot)
      (sqliteSaveMessages demoSnapshot)).chats.Perm demoSnapshot.chats ∧
    (sqliteLoad (sqliteSaveChats demoSnapshot)
      (sqliteSaveMessages demoSnapshot)).messages.Perm demoSnapshot.messages ∧
    ∀ cid : Int,
      ((sqliteLoad (sqliteSaveChats demoSnapshot)
        (sqliteSaveMessages demoSnapshot)).messages.filter
        (fun m => decide (m.chat_id = cid))).Sorted
        (fun a b => a.timestamp ≤ b.timestamp) :=
  snapshot_round_trip demoSnapshot (by decide)

/-! ### Cache→view projector (claim C9) -/

lemma summaryLE_iff (a b : ChatSummary) : summaryLE a b = true ↔ specChatOrder a b := by
  unfold summaryLE summaryCmp ordCmp strCmp specChatOrder
  by_cases h1 : b.last_message_at.getD 0 < a.last_message_at.getD 0
  · simp [h1]
    rfl
  · by_cases h2 : b.last_message_at.getD 0 = a.last_message_at.getD 0
    · by_cases h3 : a.title < b.title
      · simp [h1, h2, h3, le_of_lt h3]
        rfl
      · by_cases h4 : a.title = b.title
        · simp [h1, h2, h3, h4]
          rfl
        · have h5 : ¬ a.title ≤ b.title := by
            rcases lt_trichotomy a.title b.title with h | h | h
            · exact absurd h h3
            · exact absurd h h4
            · exact not_le.mpr h
          simp [h1, h2, h3, h4, h5]
          rfl
    · have h2' : ¬ (a.last_message_at.getD 0 = b.last_message_at.getD 0) :=
        fun h => h2 h.symm
      simp [h1, h2, h2']
      rfl

lemma summaryLE_trans (a b c : ChatSummary) (hab : summaryLE a b = true)
    (hbc : summaryLE b c = true) : summaryLE a c = true := by
  rw [summaryLE_iff] at *
  rcases hab with h | ⟨h1, h2⟩ <;> rcases hbc with h' | ⟨h1', h2'⟩
  · exact Or.inl (lt_trans h' h)
  · exact Or.inl (h1' ▸ h)
  · exact Or.inl (by rw [h1]; exact h')
  · exact Or.inr ⟨h1.trans h1', le_trans h2 h2'⟩

lemma summaryLE_total (a b : ChatSummary) :
    summaryLE a b = true ∨ summaryLE b a = true := by
  rw [summaryLE_iff, summaryLE_iff]
  rcases lt_trichotomy (a.last_message_at.getD 0) (b.last_message_at.getD 0) with h | h | h
  · exact Or.inr (Or.inl h)
  · rcases le_total a.title b.title with ht | ht
    · exact Or.inl (Or.inr ⟨h, ht⟩)
    · exact Or.inr (Or.inr ⟨h.symm, ht⟩)
  · exact Or.inl (Or.inl h)

lemma countP_decide_eq_count {α : Type} (f : α → Int) (l : List α) (x : Int) :
    l.countP (fun a => decide (f a = x)) = (l.map f).count x := by
  induction l with
  | nil => rfl
  | cons a as ih =>
    rw [List.countP_cons, List.map_cons, List.count_cons, ih]
    by_cases h : f a = x
    · simp [h]
    · simp [h]

lemma head?_map_chatItem (l : List ChatSummary) (r : Option Int) :
    ((l.map (fun chat =>
      ({ id := chat.chat_id
         title := chatTitle chat
         unread := chat.unread_count.getD 0
         is_selected := decide (r = some chat.chat_id) } : ChatListItem))).head?.map
      (fun item => item.id)) = l.head?.map (fun chat => chat.chat_id) := by
  cases l <;> rfl

/-- C9 (confirmed). `map_chat_summaries` emits the summaries sorted by
`last_message_at DESC` (`None` as 0) with ties broken by `title ASC`; the
resolved selection is the previous one when still present, else the first
chat of the sorted list, else none; and exactly the resolved chat is
marked `is_selected`. -/
theorem projector_refresh (summaries : List ChatSummary) (sel : Option Int)
    (hN : (summaries.map (fun c => c.chat_id)).Nodup) :
    ∃ sorted : List ChatSummary,
      sorted.Perm summaries ∧
      List.Sorted specChatOrder sorted ∧
      (mapChatSummaries summaries sel).1 = sorted.map (fun chat =>
        { id := chat.chat_id
          title := chatTitle chat
          unread := chat.unread_count.getD 0
          is_selected :=
            decide ((mapChatSummaries summaries sel).2 = some chat.chat_id) }) ∧
      ((mapChatSummaries summaries sel).2 =
        match sel with
        | some id =>
          if id ∈ summaries.map (fun c => c.chat_id) then some id
          else (mapChatSummaries summaries sel).1.head?.map (fun item => item.id)
        | none => (mapChatSummaries summaries sel).1.head?.map (fun item => item.id)) ∧
      (∀ item ∈ (mapChatSummaries summaries sel).1,
        item.is_selected = true ↔ (mapChatSummaries summaries sel).2 = some item.id) ∧
      ((mapChatSummaries summaries sel).1.countP (fun item => item.is_selected) =
        match (mapChatSummaries summaries sel).2 with
        | some _ => 1
        | none => 0) := by
  refine ⟨insertionSort summaryLE summaries, insertionSort_perm _ _, ?_, rfl, ?_, ?_, ?_⟩
  · exact (sorted_insertionSort summaryLE_trans summaryLE_total summaries).imp
      (fun h => (summaryLE_iff _ _).mp h)
  · -- selection characterization
    have hpm := insertionSort_perm summaryLE summaries
    have hmem_iff : ∀ id : Int,
        ((insertionSort summaryLE summaries).any
          (fun chat => chat.chat_id == id) = true) ↔
        id ∈ summaries.map (fun c => c.chat_id) := by
      intro id
      rw [List.any_eq_true]
      constructor
      · rintro ⟨chat, hchat, hbeq⟩
        exact List.mem_map.mpr ⟨chat, hpm.mem_iff.mp hchat, by simpa using hbeq.symm⟩
      · intro hmem
        obtain ⟨chat, hchat, hcid⟩ := List.mem_map.mp hmem
        exact ⟨chat, hpm.mem_iff.mpr hchat, by simp [hcid]⟩
    have hhead : ((mapChatSummaries summaries sel).1.head?.map (fun item => item.id)) =
        (insertionSort summaryLE summaries).head?.map (fun chat => chat.chat_id) :=
      head?_map_chatItem (insertionSort summaryLE summaries)
        ((mapChatSummaries summaries sel).2)
    cases sel with
    | none =>
      show (match Option.filter
          (fun i => (insertionSort summaryLE summaries).any
            (fun chat => chat.chat_id == i)) none with
        | some i => some i
        | none => (insertionSort summaryLE summaries).head?.map
            (fun c : ChatSummary => c.chat_id)) = _
      rw [hhead]
      rfl
    | some id =>
      by_cases hmem : id ∈ summaries.map (fun c => c.chat_id)
      · have hany := (hmem_iff id).mpr hmem
        show (match Option.filter
            (fun i => (insertionSort summaryLE summaries).any
              (fun chat => chat.chat_id == i)) (some id) with
          | some i => some i
          | none => (insertionSort summaryLE summaries).head?.map (fun c : ChatSummary => c.chat_id)) = _
        simp [Option.filter, hany, hmem]
      · have hany : ((insertionSort summaryLE summaries).any
            (fun chat => chat.chat_id == id)) = false :=
          Bool.eq_false_iff.mpr (fun h => hmem ((hmem_iff id).mp h))
        show (match Option.filter
            (fun i => (insertionSort summaryLE summaries).any
              (fun chat => chat.chat_id == i)) (some id) with
          | some i => some i
          | none => (insertionSort summaryLE summaries).head?.map (fun c : ChatSummary => c.chat_id)) = _
        rw [hhead]
        simp [Option.filter, hany, hmem]
  · -- marking
    intro item hitem
    obtain ⟨chat, -, rfl⟩ := List.mem_map.mp hitem
    show decide ((mapChatSummaries summaries sel).2 = some chat.chat_id) = true ↔
      (mapChatSummaries summaries sel).2 = some chat.chat_id
    rw [decide_eq_true_iff]
  · -- exactly one marked
    have hcnt : (mapChatSummaries summaries sel).1.countP (fun item => item.is_selected) =
        (insertionSort summaryLE summaries).countP
          (fun chat =>
            decide ((mapChatSummaries summaries sel).2 = some chat.chat_id)) := by
      exact List.countP_map _ _ _
    cases hres : (mapChatSummaries summaries sel).2 with
    | none =>
      rw [hcnt]
      refine List.countP_eq_zero.mpr ?_
      intro chat _
      simp [hres]
    | some id =>
      rw [hcnt]
      have hpm := insertionSort_perm summaryLE summaries
      have hnodup : ((insertionSort summaryLE summaries).map
          (fun c => c.chat_id)).Nodup :=
        ((hpm.map (fun c => c.chat_id)).nodup_iff).mpr hN
      have hidmem : id ∈ (insertionSort summaryLE summaries).map (fun c => c.chat_id) := by
        have hres2 : (match Option.filter
            (fun i => (insertionSort summaryLE summaries).any
              (fun chat => chat.chat_id == i)) sel with
          | some i => some i
          | none => (insertionSort summaryLE summaries).head?.map
              (fun c => c.chat_id)) = some id := hres
        cases sel with
        | none =>
          simp only [Option.filter] at hres2
          cases hs : insertionSort summaryLE summaries with
          | nil => rw [hs] at hres2; cases hres2
          | cons hd tl =>
            rw [hs] at hres2
            have : hd.chat_id = id := by
              simpa using hres2
            exact List.mem_map.mpr ⟨hd, List.mem_cons_self _ _, this⟩
        | some id₀ =>
          by_cases hany : ((insertionSort summaryLE summaries).any
              (fun chat => chat.chat_id == id₀)) = true
          · simp only [Option.filter, hany, if_true] at hres2
            obtain rfl : id₀ = id := by injection hres2
            obtain ⟨chat, hchat, hbeq⟩ := List.any_eq_true.mp hany
            exact List.mem_map.mpr ⟨chat, hchat, by simpa using hbeq⟩
          · rw [Bool.not_eq_true] at hany
            simp only [Option.filter, hany, if_false, Bool.false_eq_true] at hres2
            cases hs : insertionSort summaryLE summaries with
            | nil => rw [hs] at hres2; cases hres2
            | cons hd tl =>
              rw [hs] at hres2
              have : hd.chat_id = id := by
                simpa using hres2
              exact List.mem_map.mpr ⟨hd, List.mem_cons_self _ _, this⟩
      have hpred : ∀ chat ∈ insertionSort summaryLE summaries,
          (decide ((mapChatSummaries summaries sel).2 = some chat.chat_id) = true ↔
           decide (chat.chat_id = id) = true) := by
        intro chat _
        rw [hres]
        simp only [decide_eq_true_eq, Option.some.injEq]
        exact eq_comm
      rw [List.countP_congr hpred, countP_decide_eq_count]
      exact List.count_eq_one_of_mem hnodup hidmem

/-- Witness for `projector_refresh` at the two-chat `demoSummaries` with
no previous selection. -/
theorem projector_refresh_witness :
    ∃ sorted : List ChatSummary,
      sorted.Perm demoSummaries ∧
      List.Sorted specChatOrder sorted ∧
      (mapChatSummaries demoSummaries none).1 = sorted.map (fun chat =>
        { id := chat.chat_id
          title := chatTitle chat
          unread := chat.unread_count.getD 0
          is_selected :=
            decide ((mapChatSummaries demoSummaries none).2 = some chat.chat_id) }) ∧
      ((mapChatSummaries demoSummaries none).2 =
        match (none : Option Int) with
        | some id =>
          if id ∈ demoSummaries.map (fun c => c.chat_id) then some id
          else (mapChatSummaries demoSummaries none).1.head?.map (fun item => item.id)
        | none =>
          (mapChatSummaries demoSummaries none).1.head?.map (fun item => item.id)) ∧
      (∀ item ∈ (mapChatSummaries demoSummaries none).1,
        item.is_selected = true ↔
          (mapChatSummaries demoSummaries none).2 = some item.id) ∧
      ((mapChatSummaries demoSummaries none).1.countP (fun item => item.is_selected) =
        match (mapChatSummaries demoSummaries none).2 with
        | some _ => 1
        | none => 0) :=
  projector_refresh demoSummaries none (by decide)

end TgTui
